import Mathlib

/-!
The probe agent sitzprobe: probe scheduling and outcome classification

A shallow embedding of `sitzprobe.go` and a verification of its report
counters, failure classifier, channel selection loop, probe cycle, option
parsers, payment hash and scheduler.

Conventions of the embedding.

* Go `uint64` values are natural numbers, arithmetic is reduced `% 2^64`
  wherever the Go code adds.
* The global `reportSet : map[string]uint64` is an association list. A Go map
  has no order of its own; the order of the list is one of the orders in
  which `range` may visit the entries, and the theorems about `countFailures`
  quantify over all of them.
* Calls to the lightning node (`ln`) are answered by a record of responses,
  one record per probe cycle; the calls a cycle makes are collected in a trace.
* The random source is a stream of the values `rand.Int()` returns.
* A Go runtime fault (integer division by zero, index out of range) ends the
  cycle with `fault := some _`.
* Go strings are taken as sequences of characters; the pattern `[A-Z_]+`
  only ever matches ASCII characters.
* Log output is not modelled, except for the warning of the option parsers,
  which is a flag of their result.
* The type `int` has 64 bits; `strconv.Atoi` and `strconv.ParseUint` follow the
  documented behaviour of the Go library for base 10.
* The scheduler is the list of events it produces while the node answers a
  given number of cycles.
-/

namespace Sitzprobe

/-! ## Constants -/

def DefaultFreq : Int := 60
def DefaultAmt : Nat := 1

def Success : String := "success"
def NoActiveChannelFound : String := "no_active_channel_found"
def ChannelsUnavailable : String := "channels_unavailable"
def NoRouteFound : String := "no_route_found"
def SendPayFailed : String := "sendpay_call_failed"
def Run : String := "runs_started"
def UnknownError : String := "unknown_error"

/-- The failure code that `logFailure` counts as a success. -/
def BenignCode : String := "WIRE_INCORRECT_OR_UNKNOWN_PAYMENT_DETAILS"

/-- Modulus of `uint64` arithmetic. -/
def U64 : Nat := 2 ^ 64

/-! ## The report map -/

/-- The type of `reportSet`, a `map[string]uint64`, as a list of entries. -/
abbrev ReportSet := List (String × Nat)

/-- Map lookup with presence: `v, ok := m[k]`. -/
def ReportSet.lookup : ReportSet → String → Option Nat
  | [], _ => none
  | (k', v') :: rest, k => if k' = k then some v' else ReportSet.lookup rest k

/-- Map read `m[k]`: the zero value for a key that is absent. -/
def ReportSet.get (m : ReportSet) (k : String) : Nat :=
  (m.lookup k).getD 0

/-- Map write `m[k] = v`: replaces the entry of `k`, or creates it. -/
def ReportSet.set : ReportSet → String → Nat → ReportSet
  | [], k, v => [(k, v)]
  | (k', v') :: rest, k, v =>
    if k' = k then (k, v) :: rest else (k', v') :: ReportSet.set rest k v

/-- The keys of the map. -/
def ReportSet.keys (m : ReportSet) : List String := m.map Prod.fst

/-- A list of entries represents a Go map when no key occurs twice. -/
def ReportSet.WF (m : ReportSet) : Prop := m.keys.Nodup

instance (m : ReportSet) : Decidable m.WF :=
  inferInstanceAs (Decidable m.keys.Nodup)

/-- The function `count`: `reportSet[errType] += 1`. -/
def count (reportSet : ReportSet) (errType : String) : ReportSet :=
  reportSet.set errType ((reportSet.get errType + 1) % U64)

/-! ## countFailures and the report -/

/-- The body of the `range` loop of `countFailures`, for one entry. -/
def countFailuresStep (result : Nat) (kv : String × Nat) : Nat :=
  if kv.1 = Success ∨ kv.1 = Run then result else (result + kv.2) % U64

/-- The loop of `countFailures` visiting the entries in the order `entries`. -/
def countFailuresLoop (entries : List (String × Nat)) : Nat :=
  entries.foldl countFailuresStep 0

/-- The function `countFailures`: returns the result together with the
map as the function leaves it. -/
def countFailures (reportSet : ReportSet) : Nat × ReportSet :=
  (countFailuresLoop reportSet, reportSet)

structure ReportResult where
  Frequency : String
  StartedAt : String
  Runs : Nat
  Successes : Nat
  Failures : Nat
  Stats : ReportSet
  deriving DecidableEq, Repr

/-- The method `Report.Call`, given the globals `freq`, `start`, `reportSet`. -/
def Report.Call (freq : Int) (start : String) (reportSet : ReportSet) : ReportResult :=
  { Frequency := "every " ++ toString freq ++ " min"
    StartedAt := start
    Runs := reportSet.get Run
    Successes := reportSet.get Success
    Failures := (countFailures reportSet).1
    Stats := reportSet }

/-! ## The failure classifier -/

/-- Membership in the character class `[A-Z_]`. -/
def inClass (c : Char) : Bool :=
  (65 ≤ c.toNat && c.toNat ≤ 90) || c.toNat = 95

/-- The call `pattern.FindString` for `pattern = [A-Z_]+`, on the characters of
the text: the leftmost match, extended as far as it goes; empty when there is
no match. -/
def FindChars : List Char → List Char
  | [] => []
  | c :: cs => if inClass c then c :: cs.takeWhile inClass else FindChars cs

def FindString (s : String) : String := String.mk (FindChars s.toList)

/-- The function `logFailure`. -/
def logFailure (reportSet : ReportSet) (errMsg : String) : ReportSet :=
  let errorType := FindString errMsg
  if errorType = "" then count reportSet UnknownError
  else if errorType = "WIRE_INCORRECT_OR_UNKNOWN_PAYMENT_DETAILS" then count reportSet Success
  else count reportSet errorType

/-! ## The lightning node and the random source -/

/-- The fields of `glightning.Channel` that the probe reads. -/
structure Channel where
  Destination : String
  IsActive : Bool
  deriving DecidableEq, Repr

/-- The zero value of `Channel`, the initial value of `var channel`. -/
instance : Inhabited Channel := ⟨⟨"", false⟩⟩

structure RouteHop where
  Id : String
  ShortChannelId : String
  MilliSatoshi : Nat
  Delay : Nat
  deriving DecidableEq, Repr

abbrev Route := List RouteHop

/-- The answers of the lightning node `ln` during one probe cycle. An error is
represented by its message, `err.Error()`; the payment result of `WaitSendPay`
by the destination it reports. -/
structure Lightning where
  ListChannels : Except String (List Channel)
  GetRouteSimple : String → Nat → Nat → Except String Route
  SendPayLite : Route → String → Except String Unit
  WaitSendPay : String → Nat → Except String String

/-- The calls a cycle makes to the lightning node. -/
inductive HostCall where
  | ListChannels
  | GetRouteSimple (destination : String) (amount : Nat) (maxHops : Nat)
  | SendPayLite (route : Route) (paymentHash : String)
  | WaitSendPay (paymentHash : String) (timeout : Nat)
  deriving DecidableEq, Repr

/-- The random source during one cycle: `Int i` is the value of call number `i`
of `rand.Int()`, a non-negative integer; `Raw i` determines call number `i` of
`rand.Intn`. -/
structure RandSource where
  Int : Nat → Nat
  Raw : Nat → Nat

/-- The call `rand.Intn(n)`: a value in `[0, n)`. -/
def RandSource.Intn (rnd : RandSource) (i n : Nat) : Nat := rnd.Raw i % n

/-! ## randomPayHash -/

/-- One character of the table `0123456789abcdef` of `encoding/hex`. -/
def hexDigit (n : Nat) : Char :=
  if n < 10 then Char.ofNat (48 + n) else Char.ofNat (87 + n)

/-- The function `hex.EncodeToString` on a list of bytes. -/
def EncodeToString (b : List Nat) : String :=
  String.mk (b.flatMap fun v => [hexDigit (v / 16), hexDigit (v % 16)])

/-- The 32 bytes `randomPayHash` fills in: `b[i] = byte(rand.Intn(127))`. -/
def randomBytes (rnd : RandSource) : List Nat :=
  (List.range 32).map fun i => rnd.Intn i 127 % 256

/-- The function `randomPayHash`. -/
def randomPayHash (rnd : RandSource) : String :=
  EncodeToString (randomBytes rnd)

/-! ## The probe cycle -/

/-- Runtime faults of the selection loop. -/
inductive Fault where
  | divideByZero
  | indexOutOfRange
  deriving DecidableEq, Repr

/-- State of the selection loop when it ends: the number of `rand.Int()` calls
made, the variables `channel` and `ok`, and the fault that ended it, if any. -/
structure Selection where
  draws : Nat
  channel : Channel
  ok : Bool
  fault : Option Fault
  deriving DecidableEq, Repr

/-- The loop `for i := 0; i < 1000 && !ok; i++` of `run`, entered with
`ok = false`: the first argument counts the iterations that remain
(`1000 - i`), the second is `i`, the third the variable `channel`. -/
def selectLoop (channels : List Channel) (rnd : Nat → Nat) : Nat → Nat → Channel → Selection
  | 0, i, channel => ⟨i, channel, false, none⟩
  | k + 1, i, channel =>
    let r := rnd i
    if channels.length = 0 then ⟨i + 1, channel, false, some Fault.divideByZero⟩
    else
      let n := r % channels.length
      match channels[n]? with
      | none => ⟨i + 1, channel, false, some Fault.indexOutOfRange⟩
      | some c =>
        if c.IsActive then ⟨i + 1, c, true, none⟩
        else selectLoop channels rnd k (i + 1) c

/-- What one call of `run` leaves behind: the report map, the calls made to
the node in order, the number of `rand.Int()` draws, the fault that ended the
cycle (`none` when `run` returned), and the argument of the deferred
`reschedule`. -/
structure CycleResult where
  reportSet : ReportSet
  calls : List HostCall
  draws : Nat
  fault : Option Fault
  deferred : Nat
  deriving DecidableEq, Repr

/-- The function `run`. The call `rand.Seed` is absorbed in `rnd`, which is the
random source as this cycle meets it. -/
def run (ln : Lightning) (rnd : RandSource) (runNumber : Nat) (amount : Nat)
    (reportSet : ReportSet) : CycleResult :=
  let rs := count reportSet Run
  match ln.ListChannels with
  | .error _ => ⟨count rs ChannelsUnavailable, [.ListChannels], 0, none, runNumber⟩
  | .ok channels =>
    let sel := selectLoop channels rnd.Int 1000 0 default
    match sel.fault with
    | some f => ⟨rs, [.ListChannels], sel.draws, some f, runNumber⟩
    | none =>
      if !sel.ok then
        ⟨count rs NoActiveChannelFound, [.ListChannels], sel.draws, none, runNumber⟩
      else
        let dest := sel.channel.Destination
        match ln.GetRouteSimple dest amount 5 with
        | .error _ =>
          ⟨count rs NoRouteFound, [.ListChannels, .GetRouteSimple dest amount 5],
            sel.draws, none, runNumber⟩
        | .ok route =>
          let fakeHash := randomPayHash rnd
          match ln.SendPayLite route fakeHash with
          | .error _ =>
            ⟨count rs SendPayFailed,
              [.ListChannels, .GetRouteSimple dest amount 5, .SendPayLite route fakeHash],
              sel.draws, none, runNumber⟩
          | .ok _ =>
            match ln.WaitSendPay fakeHash 0 with
            | .error e =>
              ⟨logFailure rs e,
                [.ListChannels, .GetRouteSimple dest amount 5, .SendPayLite route fakeHash,
                  .WaitSendPay fakeHash 0],
                sel.draws, none, runNumber⟩
            | .ok _ =>
              ⟨count rs Success,
                [.ListChannels, .GetRouteSimple dest amount 5, .SendPayLite route fakeHash,
                  .WaitSendPay fakeHash 0],
                sel.draws, none, runNumber⟩

/-- The node and the random source as one cycle meets them. -/
structure CycleInput where
  ln : Lightning
  rnd : RandSource

/-- The report as `Report.Call` reads it, and the fault of the last cycle run
if that cycle panicked. -/
structure Snapshot where
  reportSet : ReportSet
  fault : Option Fault
  deriving DecidableEq, Repr

/-- A sequence of cycles as `reschedule` chains them: `reschedule number`
starts `run (number + 1)`, whose deferred call is `reschedule (number + 1)`.
The result is the report that can be read while the deferred `reschedule` of
the last cycle run waits on its timer. A cycle that panics leaves the report as
it made it, readable during that wait; the process ends after the wait, so the
cycles that would follow do not run. -/
def runCycles (amount : Nat) : List CycleInput → Nat → ReportSet → Snapshot
  | [], _, reportSet => ⟨reportSet, none⟩
  | c :: cs, number, reportSet =>
    let r := run c.ln c.rnd (number + 1) amount reportSet
    match r.fault with
    | some f => ⟨r.reportSet, some f⟩
    | none => runCycles amount cs r.deferred r.reportSet

/-! ## Concrete nodes used at explicit inputs -/

/-- A node that answers `ListChannels` with `channels`, finds a one-hop route,
accepts the payment and reports the failure message `msg`. -/
def nodeFailing (channels : List Channel) (msg : String) : Lightning where
  ListChannels := .ok channels
  GetRouteSimple := fun d a _ => .ok [⟨d, "1x1x1", a, 9⟩]
  SendPayLite := fun _ _ => .ok ()
  WaitSendPay := fun _ _ => .error msg

/-- A node like `nodeFailing` whose route lookup fails. -/
def nodeNoRoute (channels : List Channel) : Lightning where
  ListChannels := .ok channels
  GetRouteSimple := fun _ _ _ => .error "Could not find a route"
  SendPayLite := fun _ _ => .ok ()
  WaitSendPay := fun _ _ => .error "unexpected"

/-- A random source whose every draw is `0`. -/
def zeroRand : RandSource := ⟨fun _ => 0, fun _ => 0⟩

/-- A random source whose draw number `i` is `i`. -/
def stepRand : RandSource := ⟨fun i => i, fun i => i⟩

/-! ## Option parsing -/

/-- The error kinds of `strconv`. -/
inductive NumError where
  | ErrSyntax
  | ErrRange
  deriving DecidableEq, Repr

/-- The value of a decimal digit, `none` for any other character. -/
def digitVal (c : Char) : Option Nat :=
  if 48 ≤ c.toNat ∧ c.toNat ≤ 57 then some (c.toNat - 48) else none

/-- The loop of `strconv.ParseUint` for base 10 and 64 bits, with `n` the value
read so far: a character that is no digit is a syntax error, a value that
leaves `uint64` a range error. -/
def parseUintLoop : List Char → Nat → Except NumError Nat
  | [], n => .ok n
  | c :: cs, n =>
    match digitVal c with
    | none => .error NumError.ErrSyntax
    | some d =>
      if n ≥ (U64 - 1) / 10 + 1 then .error NumError.ErrRange
      else if n * 10 + d > U64 - 1 then .error NumError.ErrRange
      else parseUintLoop cs (n * 10 + d)

/-- The call `strconv.ParseUint(s, 10, 64)` on the characters of `s`. -/
def ParseUintChars (s : List Char) : Except NumError Nat :=
  if s = [] then .error NumError.ErrSyntax else parseUintLoop s 0

/-- The call `strconv.ParseUint(s, 10, 64)`. -/
def ParseUint (s : String) : Except NumError Nat := ParseUintChars s.toList

/-- The call `strconv.Atoi(s)`, which is `strconv.ParseInt(s, 10, 0)`, where
`int` has 64 bits: an optional sign, then `ParseUint` on the rest, then the
range check of `int`. -/
def Atoi (s : String) : Except NumError Int :=
  match s.toList with
  | [] => .error NumError.ErrSyntax
  | c :: cs =>
    let neg : Bool := decide (c = '-')
    let rest := if c = '+' ∨ c = '-' then cs else c :: cs
    match ParseUintChars rest with
    | .error NumError.ErrSyntax => .error NumError.ErrSyntax
    | .error NumError.ErrRange => .error NumError.ErrRange
    | .ok un =>
      if !neg && decide (un ≥ 2 ^ 63) then .error NumError.ErrRange
      else if neg && decide (un > 2 ^ 63) then .error NumError.ErrRange
      else .ok (if neg then - (un : Int) else (un : Int))

/-- The result of an option parser: the value returned and whether the
warning `Invalid ... set, defaulting to ...` was logged. -/
structure Parsed (α : Type) where
  value : α
  warned : Bool
  deriving DecidableEq, Repr

/-- The function `parseAmount`. -/
def parseAmount (setAmount : String) : Parsed Nat :=
  match ParseUint setAmount with
  | .error _ => ⟨DefaultAmt, true⟩
  | .ok amt => ⟨amt, false⟩

/-- The function `parseFreq`. -/
def parseFreq (setFreq : String) : Parsed Int :=
  match Atoi setFreq with
  | .error _ => ⟨DefaultFreq, true⟩
  | .ok freq => if freq ≤ 0 then ⟨DefaultFreq, true⟩ else ⟨freq, false⟩

/-! ## The scheduler -/

/-- Conversion to `int64`: the representative in `[-2^63, 2^63)`. -/
def toInt64 (x : Int) : Int := (x + 2 ^ 63) % 2 ^ 64 - 2 ^ 63

/-- The constant `time.Minute`, in nanoseconds. -/
def Minute : Int := 60 * 1000000000

/-- The argument of `time.NewTimer` in `reschedule`:
`time.Duration(freq) * time.Minute`, a product of `int64` values. -/
def timerDuration (freq : Int) : Int := toInt64 (toInt64 freq * Minute)

/-- What the scheduler does, in order. -/
inductive SchedEvent where
  | timer (duration : Int)
  | started (runNumber : Nat)
  | returned (runNumber : Nat) (reportSet : ReportSet)
  | panicked (runNumber : Nat) (fault : Fault)
  | exited
  deriving DecidableEq, Repr

/-- The first part of `reschedule`: wait on the timer unless `number` is 0,
then `go run(number+1, amount)`. -/
def rearm (freq : Int) (number : Nat) : List SchedEvent :=
  (if number ≠ 0 then [SchedEvent.timer (timerDuration freq)] else []) ++
    [SchedEvent.started (number + 1)]

/-- The function `reschedule` together with the cycles it sets off, as far as
the list of cycle inputs reaches: `reschedule number` waits and starts
`run (number + 1)`; when that cycle returns, its deferred `reschedule` goes on.
A cycle that panics still runs its deferred `reschedule`, which waits and starts
one more goroutine; then the panic ends the process. -/
def reschedule (freq : Int) (amount : Nat) :
    List CycleInput → Nat → ReportSet → List SchedEvent
  | [], number, _ => rearm freq number
  | c :: cs, number, reportSet =>
    let r := run c.ln c.rnd (number + 1) amount reportSet
    match r.fault with
    | none =>
      rearm freq number ++ SchedEvent.returned (number + 1) r.reportSet ::
        reschedule freq amount cs r.deferred r.reportSet
    | some f =>
      rearm freq number ++ SchedEvent.panicked (number + 1) f ::
        (rearm freq r.deferred ++ [SchedEvent.exited])

/-- Lookup in the option map handed to `onInit`: the empty string for an
option that is absent. -/
def optionValue (options : List (String × String)) (name : String) : String :=
  match options.find? (fun e => e.1 = name) with
  | some e => e.2
  | none => ""

def Frequency : String := "sitzprobe-freq"
def Amount : String := "sitzprobe-amt"

/-- The function `onInit`, from the parsing of the options on. -/
def onInit (options : List (String × String)) (cycles : List CycleInput) : List SchedEvent :=
  let amount := (parseAmount (optionValue options Amount)).value
  let freq := (parseFreq (optionValue options Frequency)).value
  reschedule freq amount cycles 0 []

/-- The run numbers of the cycles started, in order. -/
def startedNumbers : List SchedEvent → List Nat
  | [] => []
  | SchedEvent.started n :: rest => n :: startedNumbers rest
  | _ :: rest => startedNumbers rest

/-! ## Hexadecimal decoding -/

/-- The value of a lowercase hexadecimal digit. -/
def hexVal (c : Char) : Option Nat :=
  if 48 ≤ c.toNat ∧ c.toNat ≤ 57 then some (c.toNat - 48)
  else if 97 ≤ c.toNat ∧ c.toNat ≤ 102 then some (c.toNat - 87)
  else none

/-- Decoding of a hexadecimal text into bytes, two characters a byte. -/
def decodeHex : List Char → Option (List Nat)
  | [] => some []
  | [_] => none
  | hi :: lo :: rest =>
    match hexVal hi, hexVal lo, decodeHex rest with
    | some h, some l, some bs => some ((h * 16 + l) :: bs)
    | _, _, _ => none

/-- A node that finds a route and whose `SendPayLite` fails with `msg`. -/
def nodeSendPayFails (channels : List Channel) (msg : String) : Lightning where
  ListChannels := .ok channels
  GetRouteSimple := fun d a _ => .ok [⟨d, "1x1x1", a, 9⟩]
  SendPayLite := fun _ _ => .error msg
  WaitSendPay := fun _ _ => .error "unexpected"

/-- A node whose `ListChannels` fails with `msg`. -/
def nodeNoChannels (msg : String) : Lightning where
  ListChannels := .error msg
  GetRouteSimple := fun d a _ => .ok [⟨d, "1x1x1", a, 9⟩]
  SendPayLite := fun _ _ => .ok ()
  WaitSendPay := fun _ _ => .error "unexpected"

/-! ## Vocabulary of the specification -/

/-- The text `token` is the first run of `[A-Z_]` characters of `msg`: it is
not empty, consists of such characters, nothing before it is such a character,
and it is not continued by one. -/
def IsFirstRun (msg token : String) : Prop :=
  ∃ pre post : List Char,
    msg.toList = pre ++ token.toList ++ post ∧
    (∀ c ∈ pre, inClass c = false) ∧
    token.toList ≠ [] ∧
    (∀ c ∈ token.toList, inClass c = true) ∧
    (∀ c, post.head? = some c → inClass c = false)

/-- The text `sub` occurs in `msg` as a substring. -/
def Contains (msg sub : String) : Prop := sub.toList <:+: msg.toList

/-- The sum of the values of the entries whose key satisfies `p`. -/
def sumP (p : String → Bool) (m : ReportSet) : Nat :=
  ((m.filter fun e => p e.1).map Prod.snd).sum

/-- The keys `countFailures` adds up: all but `success` and `runs_started`. -/
def isFailureKey (k : String) : Bool := decide (k ≠ Success ∧ k ≠ Run)

/-- The sum, over the keys of the map other than `success` and
`runs_started`, of the value stored at the key. -/
def failureSum (m : ReportSet) : Nat :=
  ((m.keys.filter isFailureKey).map m.get).sum

/-- The sum of all counters other than `runs_started`. -/
def otherSum (m : ReportSet) : Nat :=
  ((m.keys.filter fun k => decide (k ≠ Run)).map m.get).sum

/-- The character is a decimal digit. -/
def isDigit (c : Char) : Bool := 48 ≤ c.toNat && c.toNat ≤ 57

/-- The number a text of decimal digits denotes, continuing from `n`. -/
def decValueFrom (n : Nat) (s : List Char) : Nat :=
  s.foldl (fun acc c => acc * 10 + (c.toNat - 48)) n

/-- The number a text of decimal digits denotes. -/
def decValue (s : List Char) : Nat := decValueFrom 0 s

/-- The text is parsable as an unsigned base-10 64-bit integer: one or more
decimal digits, nothing else, denoting a number below `2^64`. -/
def IsUint64Text (s : String) : Prop :=
  s.toList ≠ [] ∧ (∀ c ∈ s.toList, isDigit c = true) ∧ decValue s.toList < U64

/-- The text is parsable as the base-10 integer `v` of type `int`: an optional
sign, one or more decimal digits, nothing else, denoting `v` within
`[-2^63, 2^63)`. -/
def IsIntText (s : String) (v : Int) : Prop :=
  ∃ sign digits : List Char, s.toList = sign ++ digits ∧
    (sign = [] ∨ sign = ['+'] ∨ sign = ['-']) ∧
    digits ≠ [] ∧ (∀ c ∈ digits, isDigit c = true) ∧
    v = (if sign = ['-'] then - (decValue digits : Int) else (decValue digits : Int)) ∧
    - 2 ^ 63 ≤ v ∧ v < 2 ^ 63

/-- The name under which `logFailure` counts a message: the three branches of
its `switch`. -/
def classify (errMsg : String) : String :=
  if FindString errMsg = "" then UnknownError
  else if FindString errMsg = BenignCode then Success
  else FindString errMsg

/-- The counters balance after `n` cycles: `runs_started` is `n` and so is the
sum of the other counters, modulo `2^64` and exactly while `n < 2^64`. -/
structure Balanced (m : ReportSet) (n : Nat) : Prop where
  wf : m.WF
  runs : m.get Run = n % U64
  others : sumP (fun k => decide (k ≠ Run)) m % U64 = n % U64
  parts : (m.get Success + sumP isFailureKey m) % U64 = n % U64
  exactly : n < U64 → sumP (fun k => decide (k ≠ Run)) m = n ∧
    m.get Success + sumP isFailureKey m = n

/-! ## Lemmas on the report map -/

theorem lookup_set_self (m : ReportSet) (k : String) (v : Nat) :
    (m.set k v).lookup k = some v := by
  induction m with
  | nil => simp [ReportSet.set, ReportSet.lookup]
  | cons e rest ih =>
    obtain ⟨k', v'⟩ := e
    by_cases h : k' = k
    · simp [ReportSet.set, ReportSet.lookup, h]
    · simp [ReportSet.set, ReportSet.lookup, h, ih]

theorem lookup_set_ne (m : ReportSet) (k k' : String) (v : Nat) (hk : k' ≠ k) :
    (m.set k v).lookup k' = m.lookup k' := by
  induction m with
  | nil => simp [ReportSet.set, ReportSet.lookup, Ne.symm hk]
  | cons e rest ih =>
    obtain ⟨k1, v1⟩ := e
    by_cases h : k1 = k
    · subst h
      simp [ReportSet.set, ReportSet.lookup, Ne.symm hk]
    · by_cases h' : k1 = k'
      · subst h'
        simp [ReportSet.set, ReportSet.lookup, hk]
      · simp [ReportSet.set, ReportSet.lookup, h, h', ih]

theorem get_count_self (m : ReportSet) (k : String) :
    (count m k).get k = (m.get k + 1) % U64 := by
  simp [count, ReportSet.get, lookup_set_self]

theorem lookup_count_ne (m : ReportSet) (k k' : String) (hk : k' ≠ k) :
    (count m k).lookup k' = m.lookup k' := by
  simp [count, lookup_set_ne _ _ _ _ hk]

theorem get_count_ne (m : ReportSet) (k k' : String) (hk : k' ≠ k) :
    (count m k).get k' = m.get k' := by
  simp [ReportSet.get, lookup_count_ne _ _ _ hk]

/-- The three effects of `count m k` on the counters: counter `k` is
incremented in `uint64` arithmetic, it ends at `1` if it did not exist, and no
other counter changes or appears. -/
theorem count_effect (m : ReportSet) (k : String) :
    (count m k).get k = (m.get k + 1) % U64 ∧
    (m.get k + 1 < U64 → (count m k).get k = m.get k + 1) ∧
    (m.lookup k = none → (count m k).lookup k = some 1) ∧
    (∀ k', k' ≠ k → (count m k).lookup k' = m.lookup k') := by
  refine ⟨get_count_self m k, ?_, ?_, fun k' hk => lookup_count_ne m k k' hk⟩
  · intro h
    rw [get_count_self, Nat.mod_eq_of_lt h]
  · intro h
    simp [count, lookup_set_self, ReportSet.get, h, U64]

/-! ## Lemmas on the classifier -/

theorem FindChars_eq_nil_iff (s : List Char) :
    FindChars s = [] ↔ ∀ c ∈ s, inClass c = false := by
  induction s with
  | nil => simp [FindChars]
  | cons c cs ih =>
    by_cases h : inClass c = true
    · simp [FindChars, h]
    · simp only [Bool.not_eq_true] at h
      simp [FindChars, h, ih]

theorem FindChars_inClass (s : List Char) : ∀ c ∈ FindChars s, inClass c = true := by
  induction s with
  | nil => simp [FindChars]
  | cons c cs ih =>
    by_cases h : inClass c = true
    · intro d hd
      simp only [FindChars, h, if_true, List.mem_cons] at hd
      rcases hd with rfl | hd
      · exact h
      · exact (List.mem_takeWhile_imp hd)
    · simp only [Bool.not_eq_true] at h
      simpa [FindChars, h] using ih

theorem takeWhile_run (t post : List Char) (ht : ∀ c ∈ t, inClass c = true)
    (hpost : ∀ c, post.head? = some c → inClass c = false) :
    (t ++ post).takeWhile inClass = t := by
  induction t with
  | nil =>
    cases post with
    | nil => rfl
    | cons d ds => simp [List.takeWhile, hpost d rfl]
  | cons c cs ih =>
    have hc : inClass c = true := ht c (List.mem_cons_self _ _)
    have hcs : ∀ d ∈ cs, inClass d = true := fun d hd => ht d (List.mem_cons_of_mem _ hd)
    simp [List.takeWhile, hc, ih hcs]

theorem FindChars_run (pre t post : List Char) (hpre : ∀ c ∈ pre, inClass c = false)
    (hne : t ≠ []) (ht : ∀ c ∈ t, inClass c = true)
    (hpost : ∀ c, post.head? = some c → inClass c = false) :
    FindChars (pre ++ t ++ post) = t := by
  induction pre with
  | nil =>
    cases t with
    | nil => exact absurd rfl hne
    | cons c cs =>
      have hc : inClass c = true := ht c (List.mem_cons_self _ _)
      have hcs : ∀ d ∈ cs, inClass d = true := fun d hd => ht d (List.mem_cons_of_mem _ hd)
      simp [FindChars, hc, takeWhile_run cs post hcs hpost]
  | cons p ps ih =>
    have hp : inClass p = false := hpre p (List.mem_cons_self _ _)
    have hps : ∀ d ∈ ps, inClass d = false := fun d hd => hpre d (List.mem_cons_of_mem _ hd)
    simpa [FindChars, hp] using ih hps

theorem FindString_of_firstRun (msg token : String) (h : IsFirstRun msg token) :
    FindString msg = token := by
  obtain ⟨pre, post, hmsg, hpre, hne, ht, hpost⟩ := h
  unfold FindString
  rw [hmsg, FindChars_run pre token.toList post hpre hne ht hpost]
  rfl

theorem FindString_eq_empty_iff (msg : String) :
    FindString msg = "" ↔ ∀ c ∈ msg.toList, inClass c = false := by
  rw [← FindChars_eq_nil_iff]
  unfold FindString
  constructor
  · intro h
    have := congrArg String.toList h
    simpa using this
  · intro h
    rw [h]

theorem FindString_inClass (msg : String) :
    ∀ c ∈ (FindString msg).toList, inClass c = true := by
  intro c hc
  exact FindChars_inClass msg.toList c hc

theorem logFailure_eq_count (m : ReportSet) (msg : String) :
    logFailure m msg = count m (classify msg) := by
  unfold logFailure classify BenignCode
  by_cases h1 : FindString msg = ""
  · simp [h1]
  · by_cases h2 : FindString msg = "WIRE_INCORRECT_OR_UNKNOWN_PAYMENT_DETAILS"
    · simp [h2]
    · simp [h1, h2]

/-! ## Lemmas on the selection loop -/

theorem selectLoop_nil (rnd : Nat → Nat) (k i : Nat) (ch : Channel) :
    selectLoop [] rnd (k + 1) i ch = ⟨i + 1, ch, false, some Fault.divideByZero⟩ := by
  simp [selectLoop]

theorem getElem?_mod (channels : List Channel) (r : Nat) (h : channels.length ≠ 0) :
    ∃ c, channels[r % channels.length]? = some c ∧ c ∈ channels := by
  have hlt : r % channels.length < channels.length := Nat.mod_lt _ (Nat.pos_of_ne_zero h)
  exact ⟨channels[r % channels.length], List.getElem?_eq_getElem hlt, List.getElem_mem hlt⟩

theorem selectLoop_fault (channels : List Channel) (rnd : Nat → Nat)
    (h : channels.length ≠ 0) (k i : Nat) (ch : Channel) :
    (selectLoop channels rnd k i ch).fault = none := by
  induction k generalizing i ch with
  | zero => rfl
  | succ k ih =>
    obtain ⟨c, hc, _⟩ := getElem?_mod channels (rnd i) h
    by_cases ha : c.IsActive = true
    · simp [selectLoop, h, hc, ha]
    · simp [selectLoop, h, hc, ha, ih]

theorem selectLoop_inactive (channels : List Channel) (rnd : Nat → Nat)
    (h : channels.length ≠ 0) (hin : ∀ c ∈ channels, c.IsActive = false)
    (k i : Nat) (ch : Channel) :
    (selectLoop channels rnd k i ch).draws = i + k ∧
    (selectLoop channels rnd k i ch).ok = false := by
  induction k generalizing i ch with
  | zero => exact ⟨rfl, rfl⟩
  | succ k ih =>
    obtain ⟨c, hc, hmem⟩ := getElem?_mod channels (rnd i) h
    have ha : c.IsActive = false := hin c hmem
    have := ih (i + 1) c
    simp only [selectLoop, h, hc, ha, if_false, Bool.false_eq_true]
    constructor
    · rw [this.1]; omega
    · exact this.2

/-- When the loop ends with `ok`, the variable `channel` holds the channel at
the first drawn index whose channel is active. -/
theorem selectLoop_sound (channels : List Channel) (rnd : Nat → Nat)
    (k i : Nat) (ch : Channel)
    (hok : (selectLoop channels rnd k i ch).ok = true) :
    ∃ j, i ≤ j ∧ j < i + k ∧ (selectLoop channels rnd k i ch).draws = j + 1 ∧
      channels[rnd j % channels.length]? = some (selectLoop channels rnd k i ch).channel ∧
      (selectLoop channels rnd k i ch).channel.IsActive = true ∧
      ∀ j', i ≤ j' → j' < j → ∀ c, channels[rnd j' % channels.length]? = some c →
        c.IsActive = false := by
  induction k generalizing i ch with
  | zero => simp [selectLoop] at hok
  | succ k ih =>
    by_cases h : channels.length = 0
    · simp [selectLoop, h] at hok
    · obtain ⟨c, hc, _⟩ := getElem?_mod channels (rnd i) h
      by_cases ha : c.IsActive = true
      · refine ⟨i, le_refl _, by omega, ?_⟩
        simp only [selectLoop, h, hc, ha, if_true, if_false, true_and]
        intro j' h1 h2
        omega
      · simp only [Bool.not_eq_true] at ha
        simp only [selectLoop, h, hc, ha, if_false] at hok ⊢
        obtain ⟨j, h1, h2, h3, h4, h5, h6⟩ := ih (i + 1) c hok
        refine ⟨j, by omega, by omega, h3, h4, h5, ?_⟩
        intro j' hj1 hj2 c' hc'
        by_cases hji : j' = i
        · subst hji
          rw [hc] at hc'
          cases hc'
          exact ha
        · exact h6 j' (by omega) hj2 c' hc'

/-- When one of the draws the loop can make hits an active channel, the loop
ends with `ok` and without a fault. -/
theorem selectLoop_complete (channels : List Channel) (rnd : Nat → Nat)
    (k i : Nat) (ch : Channel)
    (hex : ∃ j, i ≤ j ∧ j < i + k ∧ ∃ c, channels[rnd j % channels.length]? = some c ∧
      c.IsActive = true) :
    (selectLoop channels rnd k i ch).ok = true ∧
    (selectLoop channels rnd k i ch).fault = none := by
  induction k generalizing i ch with
  | zero =>
    obtain ⟨j, h1, h2, _⟩ := hex
    omega
  | succ k ih =>
    obtain ⟨j, h1, h2, c, hc, hact⟩ := hex
    have h : channels.length ≠ 0 := by
      intro h0
      have : channels = [] := List.length_eq_zero.mp h0
      subst this
      simp at hc
    obtain ⟨c0, hc0, _⟩ := getElem?_mod channels (rnd i) h
    by_cases ha : c0.IsActive = true
    · simp [selectLoop, h, hc0, ha]
    · simp only [Bool.not_eq_true] at ha
      simp only [selectLoop, h, hc0, ha, if_false]
      apply ih
      refine ⟨j, ?_, by omega, c, hc, hact⟩
      by_contra hlt
      have hji : j = i := by omega
      subst hji
      rw [hc0] at hc
      cases hc
      rw [ha] at hact
      cases hact

/-! ## Lemmas on `run` -/

theorem run_eq_of_channels_error (ln : Lightning) (rnd : RandSource) (n amount : Nat)
    (m : ReportSet) (e : String) (h : ln.ListChannels = .error e) :
    run ln rnd n amount m =
      ⟨count (count m Run) ChannelsUnavailable, [.ListChannels], 0, none, n⟩ := by
  simp [run, h]

theorem run_eq_of_empty (ln : Lightning) (rnd : RandSource) (n amount : Nat)
    (m : ReportSet) (h : ln.ListChannels = .ok []) :
    run ln rnd n amount m =
      ⟨count m Run, [.ListChannels], 1, some Fault.divideByZero, n⟩ := by
  simp [run, h, selectLoop_nil]

theorem run_eq_of_not_ok (ln : Lightning) (rnd : RandSource) (n amount : Nat)
    (m : ReportSet) (channels : List Channel) (h : ln.ListChannels = .ok channels)
    (hf : (selectLoop channels rnd.Int 1000 0 default).fault = none)
    (hok : (selectLoop channels rnd.Int 1000 0 default).ok = false) :
    run ln rnd n amount m =
      ⟨count (count m Run) NoActiveChannelFound, [.ListChannels],
        (selectLoop channels rnd.Int 1000 0 default).draws, none, n⟩ := by
  simp [run, h, hf, hok]

theorem run_eq_of_route_error (ln : Lightning) (rnd : RandSource) (n amount : Nat)
    (m : ReportSet) (channels : List Channel) (e : String)
    (h : ln.ListChannels = .ok channels)
    (hf : (selectLoop channels rnd.Int 1000 0 default).fault = none)
    (hok : (selectLoop channels rnd.Int 1000 0 default).ok = true)
    (hr : ln.GetRouteSimple (selectLoop channels rnd.Int 1000 0 default).channel.Destination
      amount 5 = .error e) :
    run ln rnd n amount m =
      ⟨count (count m Run) NoRouteFound,
        [.ListChannels, .GetRouteSimple
          (selectLoop channels rnd.Int 1000 0 default).channel.Destination amount 5],
        (selectLoop channels rnd.Int 1000 0 default).draws, none, n⟩ := by
  simp [run, h, hf, hok, hr]

/-- The first two calls of a cycle that went past the selection loop; no
further route is requested. -/
theorem run_selected_calls (ln : Lightning) (rnd : RandSource) (n amount : Nat)
    (m : ReportSet) (channels : List Channel)
    (h : ln.ListChannels = .ok channels)
    (hf : (selectLoop channels rnd.Int 1000 0 default).fault = none)
    (hok : (selectLoop channels rnd.Int 1000 0 default).ok = true) :
    ∃ rest, (run ln rnd n amount m).calls =
      HostCall.ListChannels :: HostCall.GetRouteSimple
        (selectLoop channels rnd.Int 1000 0 default).channel.Destination amount 5 :: rest ∧
      ∀ d a hops, HostCall.GetRouteSimple d a hops ∉ rest := by
  simp only [run, h, hf, hok, Bool.not_true, Bool.false_eq_true, if_false]
  repeat' split
  all_goals simp

theorem selectLoop_ok_fault (channels : List Channel) (rnd : Nat → Nat)
    (k i : Nat) (ch : Channel) (hok : (selectLoop channels rnd k i ch).ok = true) :
    (selectLoop channels rnd k i ch).fault = none := by
  obtain ⟨j, _, _, _, hc, _⟩ := selectLoop_sound channels rnd k i ch hok
  apply selectLoop_fault
  intro h0
  have : channels = [] := List.length_eq_zero.mp h0
  subst this
  simp at hc

/-- A cycle faults exactly when the node answers with an empty channel list. -/
theorem run_fault_iff (ln : Lightning) (rnd : RandSource) (n amount : Nat)
    (m : ReportSet) :
    (run ln rnd n amount m).fault = none ↔ ln.ListChannels ≠ .ok [] := by
  constructor
  · intro hf h
    rw [run_eq_of_empty ln rnd n amount m h] at hf
    cases hf
  · intro hne
    rcases hl : ln.ListChannels with e | channels
    · rw [run_eq_of_channels_error ln rnd n amount m e hl]
    · have hlen : channels.length ≠ 0 := by
        intro h0
        exact hne (by rw [hl, List.length_eq_zero.mp h0])
      have hf := selectLoop_fault channels rnd.Int hlen 1000 0 default
      simp only [run, hl, hf]
      repeat' split
      all_goals rfl

theorem classify_ne_run (msg : String) : classify msg ≠ Run := by
  unfold classify
  split
  · decide
  · split
    · decide
    · intro h
      have hr := FindString_inClass msg
      rw [h] at hr
      exact absurd (hr 'r' (by decide)) (by decide)

/-- A cycle that returns has counted `runs_started` and then exactly one other
name. -/
theorem run_counts (ln : Lightning) (rnd : RandSource) (n amount : Nat)
    (m : ReportSet) (hf : (run ln rnd n amount m).fault = none) :
    ∃ k, k ≠ Run ∧ (run ln rnd n amount m).reportSet = count (count m Run) k := by
  have hne := (run_fault_iff ln rnd n amount m).mp hf
  rcases hl : ln.ListChannels with e | channels
  · rw [run_eq_of_channels_error ln rnd n amount m e hl]
    exact ⟨ChannelsUnavailable, by decide, rfl⟩
  · have hlen : channels.length ≠ 0 := by
      intro h0
      exact hne (by rw [hl, List.length_eq_zero.mp h0])
    have hsf := selectLoop_fault channels rnd.Int hlen 1000 0 default
    simp only [run, hl, hsf]
    split
    · exact ⟨NoActiveChannelFound, by decide, rfl⟩
    · split
      · exact ⟨NoRouteFound, by decide, rfl⟩
      · split
        · exact ⟨SendPayFailed, by decide, rfl⟩
        · split
          · exact ⟨_, classify_ne_run _, logFailure_eq_count _ _⟩
          · exact ⟨Success, by decide, rfl⟩

theorem run_deferred (ln : Lightning) (rnd : RandSource) (n amount : Nat)
    (m : ReportSet) : (run ln rnd n amount m).deferred = n := by
  simp only [run]
  repeat' split
  all_goals rfl

/-! ## Lemmas on sums of counters -/

theorem lookup_cons_self (k : String) (v : Nat) (rest : ReportSet) :
    ReportSet.get ((k, v) :: rest) k = v := by
  simp [ReportSet.get, ReportSet.lookup]

theorem get_cons_ne (k k' : String) (v : Nat) (rest : ReportSet) (h : k ≠ k') :
    ReportSet.get ((k, v) :: rest) k' = ReportSet.get rest k' := by
  simp [ReportSet.get, ReportSet.lookup, h]

/-- In a map, the sum over the selected entries is the sum over the selected
keys of the value read at the key. -/
theorem sumP_eq_keys (p : String → Bool) (m : ReportSet) (hwf : m.WF) :
    sumP p m = ((m.keys.filter p).map m.get).sum := by
  induction m with
  | nil => rfl
  | cons e rest ih =>
    obtain ⟨k, v⟩ := e
    have hnd : (k :: (ReportSet.keys rest)).Nodup := hwf
    have hk : k ∉ (ReportSet.keys rest) := (List.nodup_cons.mp hnd).1
    have hrest : ReportSet.WF rest := (List.nodup_cons.mp hnd).2
    have hcongr : ((ReportSet.keys rest).filter p).map (ReportSet.get ((k, v) :: rest)) =
        ((ReportSet.keys rest).filter p).map (ReportSet.get rest) := by
      apply List.map_congr_left
      intro k' hk'
      have hmem : k' ∈ (ReportSet.keys rest) := List.mem_of_mem_filter hk'
      have hne : k ≠ k' := fun h => hk (h ▸ hmem)
      exact get_cons_ne k k' v rest hne
    have ih' := ih hrest
    unfold sumP at ih' ⊢
    by_cases hp : p k = true
    · simp only [ReportSet.keys, List.map_cons, List.filter_cons, hp, if_true, List.sum_cons]
      simp only [ReportSet.keys] at hcongr
      rw [hcongr, lookup_cons_self, ih']
      rfl
    · simp only [ReportSet.keys, List.map_cons, List.filter_cons, hp, if_false,
        Bool.false_eq_true]
      simp only [ReportSet.keys] at hcongr
      rw [hcongr, ih']
      rfl

theorem sumP_perm (p : String → Bool) (m m' : ReportSet) (h : m'.Perm m) :
    sumP p m' = sumP p m := by
  unfold sumP
  exact ((h.filter _).map _).sum_eq

theorem sumP_set (p : String → Bool) (m : ReportSet) (k : String) (v : Nat) :
    sumP p (m.set k v) + (if p k then m.get k else 0) =
      sumP p m + (if p k then v else 0) := by
  induction m with
  | nil => by_cases hp : p k = true <;> simp [sumP, ReportSet.set, ReportSet.get,
      ReportSet.lookup, hp]
  | cons e rest ih =>
    obtain ⟨k1, v1⟩ := e
    by_cases h : k1 = k
    · subst h
      by_cases hp : p k1 = true
      · simp [sumP, ReportSet.set, ReportSet.get, ReportSet.lookup, hp]
        omega
      · simp [sumP, ReportSet.set, ReportSet.get, ReportSet.lookup, hp]
    · have hget : ReportSet.get ((k1, v1) :: rest) k = ReportSet.get rest k :=
        get_cons_ne k1 k v1 rest h
      rw [hget]
      by_cases hp1 : p k1 = true
      · have e1 : sumP p (ReportSet.set ((k1, v1) :: rest) k v) =
            v1 + sumP p (ReportSet.set rest k v) := by
          simp [sumP, ReportSet.set, h, hp1]
        have e2 : sumP p ((k1, v1) :: rest) = v1 + sumP p rest := by
          simp [sumP, hp1]
        rw [e1, e2]
        omega
      · have e1 : sumP p (ReportSet.set ((k1, v1) :: rest) k v) =
            sumP p (ReportSet.set rest k v) := by
          simp [sumP, ReportSet.set, h, hp1]
        have e2 : sumP p ((k1, v1) :: rest) = sumP p rest := by
          simp [sumP, hp1]
        rw [e1, e2]
        exact ih

theorem get_le_sumP (p : String → Bool) (m : ReportSet) (k : String) (hp : p k = true) :
    m.get k ≤ sumP p m := by
  induction m with
  | nil => simp [ReportSet.get, ReportSet.lookup]
  | cons e rest ih =>
    obtain ⟨k1, v1⟩ := e
    by_cases h : k1 = k
    · subst h
      simp [sumP, ReportSet.get, ReportSet.lookup, hp]
    · rw [get_cons_ne k1 k v1 rest h]
      by_cases hp1 : p k1 = true
      · have e2 : sumP p ((k1, v1) :: rest) = v1 + sumP p rest := by
          simp [sumP, hp1]
        omega
      · have e2 : sumP p ((k1, v1) :: rest) = sumP p rest := by
          simp [sumP, hp1]
        omega

/-- Counting under a key outside the selection leaves the selected sum as it is. -/
theorem sumP_count_of_not (p : String → Bool) (m : ReportSet) (k : String)
    (hp : p k = false) : sumP p (count m k) = sumP p m := by
  have := sumP_set p m k ((m.get k + 1) % U64)
  simpa [count, hp] using this

/-- Counting under a selected key adds one to the selected sum, modulo `2^64`. -/
theorem sumP_count_mod (p : String → Bool) (m : ReportSet) (k : String)
    (hp : p k = true) : sumP p (count m k) % U64 = (sumP p m + 1) % U64 := by
  have h := sumP_set p m k ((m.get k + 1) % U64)
  simp only [hp, if_true] at h
  have h1 : (sumP p (count m k) + m.get k) % U64 = (sumP p m + 1 + m.get k) % U64 := by
    unfold count
    rw [h, Nat.add_mod, Nat.mod_mod, ← Nat.add_mod]
    congr 1
    omega
  exact Nat.ModEq.add_right_cancel' (m.get k) h1

/-- Counting under a selected key adds exactly one when the counter does not
wrap around. -/
theorem sumP_count_exact (p : String → Bool) (m : ReportSet) (k : String)
    (hp : p k = true) (hlt : m.get k + 1 < U64) :
    sumP p (count m k) = sumP p m + 1 := by
  have h := sumP_set p m k ((m.get k + 1) % U64)
  simp only [hp, if_true, Nat.mod_eq_of_lt hlt] at h
  unfold count
  rw [Nat.mod_eq_of_lt hlt]
  omega

theorem countFailuresStep_lt (acc : Nat) (kv : String × Nat) (h : acc < U64) :
    countFailuresStep acc kv < U64 := by
  unfold countFailuresStep
  split
  · exact h
  · exact Nat.mod_lt _ (by decide)

theorem foldl_countFailuresStep (entries : List (String × Nat)) (acc : Nat)
    (h : acc < U64) :
    entries.foldl countFailuresStep acc = (acc + sumP isFailureKey entries) % U64 := by
  induction entries generalizing acc with
  | nil => simp [sumP, Nat.mod_eq_of_lt h]
  | cons e rest ih =>
    obtain ⟨k, v⟩ := e
    rw [List.foldl_cons, ih _ (countFailuresStep_lt acc (k, v) h)]
    by_cases hk : k = Success ∨ k = Run
    · have hf : isFailureKey k = false := by
        unfold isFailureKey
        rcases hk with rfl | rfl <;> decide
      simp [countFailuresStep, hk, sumP, hf]
    · have hf : isFailureKey k = true := by
        unfold isFailureKey
        simp only [not_or] at hk
        simpa using hk
      have e2 : sumP isFailureKey ((k, v) :: rest) = v + sumP isFailureKey rest := by
        simp [sumP, hf]
      rw [e2]
      simp only [countFailuresStep, hk, if_false]
      rw [Nat.add_mod, Nat.mod_mod, ← Nat.add_mod]
      congr 1
      omega

theorem countFailuresLoop_eq (entries : List (String × Nat)) :
    countFailuresLoop entries = sumP isFailureKey entries % U64 := by
  unfold countFailuresLoop
  rw [foldl_countFailuresStep entries 0 (by decide)]
  simp

/-! ## Well-formedness and the balance of the counters -/

theorem keys_set (m : ReportSet) (k : String) (v : Nat) :
    (m.set k v).keys = if k ∈ m.keys then m.keys else m.keys ++ [k] := by
  induction m with
  | nil => simp [ReportSet.set, ReportSet.keys]
  | cons e rest ih =>
    obtain ⟨k1, v1⟩ := e
    by_cases h : k1 = k
    · subst h
      simp [ReportSet.set, ReportSet.keys]
    · have hk : ¬ k = k1 := fun h' => h h'.symm
      simp only [ReportSet.keys] at ih
      by_cases hmem : k ∈ List.map Prod.fst rest
      · simp [ReportSet.set, ReportSet.keys, h, hk, ih, hmem]
      · simp [ReportSet.set, ReportSet.keys, h, hk, ih, hmem]

theorem WF_count (m : ReportSet) (k : String) (h : m.WF) : (count m k).WF := by
  unfold ReportSet.WF count at *
  rw [keys_set]
  by_cases hmem : k ∈ m.keys
  · simpa [hmem] using h
  · simp only [hmem, if_false]
    exact List.Nodup.append h (List.nodup_singleton k) (by simpa using hmem)

theorem U64_eq : U64 = 18446744073709551616 := by decide

theorem Balanced_empty : Balanced [] 0 :=
  ⟨List.nodup_nil, by decide, by decide, by decide, fun _ => ⟨by decide, by decide⟩⟩

theorem Balanced_step (m : ReportSet) (n : Nat) (k : String) (hk : k ≠ Run)
    (hb : Balanced m n) : Balanced (count (count m Run) k) (n + 1) := by
  obtain ⟨hwf, hruns, hoth, hspl, hex⟩ := hb
  have r1 : (count (count m Run) k).get Run = (m.get Run + 1) % U64 := by
    rw [get_count_ne _ _ _ (Ne.symm hk), get_count_self]
  have o1 : sumP (fun k => decide (k ≠ Run)) (count m Run) =
      sumP (fun k => decide (k ≠ Run)) m := sumP_count_of_not _ m Run (by simp)
  have o2 := sumP_count_mod (fun k => decide (k ≠ Run)) (count m Run) k (by simpa using hk)
  have o3 := sumP_count_exact (fun k => decide (k ≠ Run)) (count m Run) k (by simpa using hk)
  have o4 := get_le_sumP (fun k => decide (k ≠ Run)) (count m Run) k (by simpa using hk)
  have s1 : (count m Run).get Success = m.get Success :=
    get_count_ne m Run Success (by decide)
  have f1 : sumP isFailureKey (count m Run) = sumP isFailureKey m :=
    sumP_count_of_not _ m Run (by decide)
  rw [o1] at o2 o3 o4
  refine ⟨WF_count _ _ (WF_count _ _ hwf), ?_, ?_, ?_, ?_⟩
  · rw [r1, hruns, U64_eq]; omega
  · rw [o2]; rw [U64_eq] at hoth ⊢; omega
  · by_cases hs : k = Success
    · subst hs
      have s2 : (count (count m Run) Success).get Success =
          ((count m Run).get Success + 1) % U64 := get_count_self _ _
      have f2 : sumP isFailureKey (count (count m Run) Success) =
          sumP isFailureKey (count m Run) := sumP_count_of_not _ _ Success (by decide)
      rw [s2, f2, s1, f1]
      rw [U64_eq] at hspl ⊢
      omega
    · have hf : isFailureKey k = true := by
        unfold isFailureKey
        simpa using ⟨hs, hk⟩
      have s2 : (count (count m Run) k).get Success = (count m Run).get Success :=
        get_count_ne _ k Success (Ne.symm hs)
      have f2 := sumP_count_mod isFailureKey (count m Run) k hf
      rw [f1] at f2
      rw [s2, s1]
      rw [U64_eq] at hspl f2 ⊢
      omega
  · intro hn
    obtain ⟨e1, e2⟩ := hex (by omega)
    have o5 := o3 (by omega)
    refine ⟨by omega, ?_⟩
    by_cases hs : k = Success
    · subst hs
      have s2 : (count (count m Run) Success).get Success =
          ((count m Run).get Success + 1) % U64 := get_count_self _ _
      have f2 : sumP isFailureKey (count (count m Run) Success) =
          sumP isFailureKey (count m Run) := sumP_count_of_not _ _ Success (by decide)
      rw [s2, f2, s1, f1]
      rw [U64_eq] at hn ⊢
      omega
    · have hf : isFailureKey k = true := by
        unfold isFailureKey
        simpa using ⟨hs, hk⟩
      have s2 : (count (count m Run) k).get Success = (count m Run).get Success :=
        get_count_ne _ k Success (Ne.symm hs)
      have f3 := get_le_sumP isFailureKey (count m Run) k hf
      rw [f1] at f3
      have f2 := sumP_count_exact isFailureKey (count m Run) k hf (by omega)
      rw [f1] at f2
      rw [s2, s1, f2]
      omega

theorem runCycles_balanced (amount : Nat) (cycles : List CycleInput)
    (hne : ∀ c ∈ cycles, c.ln.ListChannels ≠ .ok [])
    (number n : Nat) (m : ReportSet) (hb : Balanced m n) :
    ∃ m', runCycles amount cycles number m = ⟨m', none⟩ ∧
      Balanced m' (n + cycles.length) := by
  induction cycles generalizing number n m with
  | nil => exact ⟨m, rfl, hb⟩
  | cons c cs ih =>
    have hf : (run c.ln c.rnd (number + 1) amount m).fault = none :=
      (run_fault_iff _ _ _ _ _).mpr (hne c (List.mem_cons_self _ _))
    obtain ⟨k, hk, hrs⟩ := run_counts c.ln c.rnd (number + 1) amount m hf
    have hb' : Balanced (run c.ln c.rnd (number + 1) amount m).reportSet (n + 1) := by
      rw [hrs]
      exact Balanced_step m n k hk hb
    obtain ⟨m', hm', hbal⟩ := ih (fun c' hc' => hne c' (List.mem_cons_of_mem _ hc'))
      (run c.ln c.rnd (number + 1) amount m).deferred (n + 1) _ hb'
    refine ⟨m', ?_, ?_⟩
    · simp only [runCycles, hf]
      exact hm'
    · rw [List.length_cons]
      have : n + (cs.length + 1) = n + 1 + cs.length := by omega
      rw [this]
      exact hbal

/-- Cycles that return, followed by one that meets an empty channel list: the
report is the balanced report of the former with `runs_started` counted once
more, and it is read with the fault pending. -/
theorem runCycles_fault_after (amount : Nat) (pre : List CycleInput) (c : CycleInput)
    (cs : List CycleInput)
    (hpre : ∀ p ∈ pre, p.ln.ListChannels ≠ .ok []) (h : c.ln.ListChannels = .ok [])
    (number n : Nat) (m : ReportSet) (hb : Balanced m n) :
    ∃ m', Balanced m' (n + pre.length) ∧
      runCycles amount (pre ++ c :: cs) number m =
        ⟨count m' Run, some Fault.divideByZero⟩ := by
  induction pre generalizing number n m with
  | nil =>
    refine ⟨m, hb, ?_⟩
    simp [runCycles, run_eq_of_empty c.ln c.rnd (number + 1) amount m h]
  | cons p ps ih =>
    have hf : (run p.ln p.rnd (number + 1) amount m).fault = none :=
      (run_fault_iff _ _ _ _ _).mpr (hpre p (List.mem_cons_self _ _))
    obtain ⟨k, hk, hrs⟩ := run_counts p.ln p.rnd (number + 1) amount m hf
    have hb' : Balanced (run p.ln p.rnd (number + 1) amount m).reportSet (n + 1) := by
      rw [hrs]
      exact Balanced_step m n k hk hb
    obtain ⟨m', hbal, hm'⟩ := ih (fun p' hp' => hpre p' (List.mem_cons_of_mem _ hp'))
      (run p.ln p.rnd (number + 1) amount m).deferred (n + 1) _ hb'
    refine ⟨m', ?_, ?_⟩
    · rw [List.length_cons]
      have : n + (ps.length + 1) = n + 1 + ps.length := by omega
      rw [this]
      exact hbal
    · simp only [List.cons_append, runCycles, hf]
      exact hm'

/-! ## The empty channel list -/

/-- C1, evaluated on the code: when the node answers `ListChannels` with an
empty list, the selection loop makes one draw and then divides by
`len(channels) = 0`; the cycle ends in a fault, with `runs_started` at 1 and
`no_active_channel_found` not recorded. -/
theorem run_empty_list_faults (ln : Lightning) (rnd : RandSource) (n amount : Nat)
    (h : ln.ListChannels = .ok []) :
    (run ln rnd n amount []).fault = some Fault.divideByZero ∧
    (run ln rnd n amount []).draws = 1 ∧
    (run ln rnd n amount []).reportSet = [(Run, 1)] ∧
    (run ln rnd n amount []).reportSet.get Run = 1 ∧
    (run ln rnd n amount []).reportSet.get NoActiveChannelFound = 0 := by
  rw [run_eq_of_empty ln rnd n amount [] h]
  have hc : count [] Run = [(Run, 1)] := by decide
  rw [hc]
  exact ⟨rfl, rfl, rfl, rfl, rfl⟩

theorem run_empty_list_faults_witness :
    (nodeFailing [] "x").ListChannels = .ok [] ∧
    (run (nodeFailing [] "x") zeroRand 1 1 []).fault = some Fault.divideByZero ∧
    (run (nodeFailing [] "x") zeroRand 1 1 []).draws = 1 ∧
    (run (nodeFailing [] "x") zeroRand 1 1 []).reportSet = [(Run, 1)] ∧
    (run (nodeFailing [] "x") zeroRand 1 1 []).reportSet.get Run = 1 ∧
    (run (nodeFailing [] "x") zeroRand 1 1 []).reportSet.get NoActiveChannelFound = 0 :=
  ⟨rfl, run_empty_list_faults (nodeFailing [] "x") zeroRand 1 1 rfl⟩

/-! ## The classifier -/

/-- C2, counterexample: a message that contains the benign code after an
earlier capital letter is not counted as a success; the counter `E` is created
and `success` stays at 0. -/
theorem logFailure_contains_benign_counterexample :
    Contains "Error: WIRE_INCORRECT_OR_UNKNOWN_PAYMENT_DETAILS" BenignCode ∧
    logFailure [] "Error: WIRE_INCORRECT_OR_UNKNOWN_PAYMENT_DETAILS" = [("E", 1)] ∧
    (logFailure [] "Error: WIRE_INCORRECT_OR_UNKNOWN_PAYMENT_DETAILS").get Success = 0 ∧
    (logFailure [] "Error: WIRE_INCORRECT_OR_UNKNOWN_PAYMENT_DETAILS").get "E" = 1 :=
  ⟨⟨"Error: ".toList, [], by decide⟩, by decide, by decide, by decide⟩

/-- C2, amended: for every error message whose first run of `[A-Z_]` characters
is exactly `WIRE_INCORRECT_OR_UNKNOWN_PAYMENT_DETAILS`, `logFailure` counts a
success: the `success` counter is incremented by one (in `uint64` arithmetic,
by exactly one below the maximum) and no other counter changes or appears. -/
theorem logFailure_benign (m : ReportSet) (msg : String)
    (h : IsFirstRun msg BenignCode) :
    logFailure m msg = count m Success ∧
    (logFailure m msg).get Success = (m.get Success + 1) % U64 ∧
    (m.get Success + 1 < U64 → (logFailure m msg).get Success = m.get Success + 1) ∧
    (∀ k, k ≠ Success → (logFailure m msg).lookup k = m.lookup k) := by
  have hfs : FindString msg = BenignCode := FindString_of_firstRun msg BenignCode h
  have hc : classify msg = Success := by
    unfold classify
    rw [hfs]
    decide
  rw [logFailure_eq_count, hc]
  obtain ⟨h1, h2, _, h4⟩ := count_effect m Success
  exact ⟨rfl, h1, h2, h4⟩

theorem logFailure_benign_witness :
    IsFirstRun "failed: WIRE_INCORRECT_OR_UNKNOWN_PAYMENT_DETAILS (reply from remote)"
      BenignCode ∧
    logFailure [(Run, 1)]
      "failed: WIRE_INCORRECT_OR_UNKNOWN_PAYMENT_DETAILS (reply from remote)" =
      [(Run, 1), (Success, 1)] := by
  have hrun : IsFirstRun
      "failed: WIRE_INCORRECT_OR_UNKNOWN_PAYMENT_DETAILS (reply from remote)" BenignCode :=
    ⟨"failed: ".toList, " (reply from remote)".toList, by decide, by decide, by decide,
      by decide, by intro c hc; cases hc; decide⟩
  refine ⟨hrun, ?_⟩
  rw [(logFailure_benign [(Run, 1)] _ hrun).1]
  decide

/-- C3: for every error message without a character from `[A-Z_]` (the empty
message included), `logFailure` increments `unknown_error` by one (in `uint64`
arithmetic, by exactly one below the maximum) and no other counter changes or
appears; for every message with such a character, `unknown_error` is left as
it is. -/
theorem logFailure_unknown_error (m : ReportSet) (msg : String) :
    ((∀ c ∈ msg.toList, inClass c = false) →
      logFailure m msg = count m UnknownError ∧
      (logFailure m msg).get UnknownError = (m.get UnknownError + 1) % U64 ∧
      (m.get UnknownError + 1 < U64 →
        (logFailure m msg).get UnknownError = m.get UnknownError + 1) ∧
      (∀ k, k ≠ UnknownError → (logFailure m msg).lookup k = m.lookup k)) ∧
    ((∃ c ∈ msg.toList, inClass c = true) →
      (logFailure m msg).lookup UnknownError = m.lookup UnknownError) := by
  constructor
  · intro h
    have hfs : FindString msg = "" := (FindString_eq_empty_iff msg).mpr h
    have hc : classify msg = UnknownError := by
      unfold classify
      rw [if_pos hfs]
    rw [logFailure_eq_count, hc]
    obtain ⟨h1, h2, _, h4⟩ := count_effect m UnknownError
    exact ⟨rfl, h1, h2, h4⟩
  · rintro ⟨c, hc, hin⟩
    have hfs : FindString msg ≠ "" := by
      intro h0
      have := (FindString_eq_empty_iff msg).mp h0 c hc
      rw [hin] at this
      cases this
    have hne : UnknownError ≠ classify msg := by
      unfold classify
      rw [if_neg hfs]
      split
      · decide
      · intro h
        have hr := FindString_inClass msg
        rw [← h] at hr
        exact absurd (hr 'u' (by decide)) (by decide)
    rw [logFailure_eq_count]
    exact lookup_count_ne m _ _ hne

theorem logFailure_unknown_error_witness :
    (∀ c ∈ "connection reset by peer".toList, inClass c = false) ∧
    logFailure [(Run, 1)] "connection reset by peer" = [(Run, 1), (UnknownError, 1)] ∧
    (∃ c ∈ "failed: WIRE_EXPIRY_TOO_SOON".toList, inClass c = true) ∧
    (logFailure [(Run, 4), (UnknownError, 3)] "failed: WIRE_EXPIRY_TOO_SOON").lookup
      UnknownError = some 3 := by
  have h1 : ∀ c ∈ "connection reset by peer".toList, inClass c = false := by decide
  have h2 : ∃ c ∈ "failed: WIRE_EXPIRY_TOO_SOON".toList, inClass c = true :=
    ⟨'W', by decide, by decide⟩
  refine ⟨h1, ?_, h2, ?_⟩
  · rw [((logFailure_unknown_error [(Run, 1)] "connection reset by peer").1 h1).1]
    decide
  · rw [(logFailure_unknown_error [(Run, 4), (UnknownError, 3)]
      "failed: WIRE_EXPIRY_TOO_SOON").2 h2]
    decide

/-- C4: for every error message whose first run of `[A-Z_]` characters is a
token `T` other than `WIRE_INCORRECT_OR_UNKNOWN_PAYMENT_DETAILS`, `logFailure`
increments the counter named `T` by one (in `uint64` arithmetic, by exactly one
below the maximum), a counter that did not exist ends at 1, and no other
counter changes or appears. -/
theorem logFailure_token (m : ReportSet) (msg T : String)
    (h : IsFirstRun msg T) (hT : T ≠ BenignCode) :
    logFailure m msg = count m T ∧
    (logFailure m msg).get T = (m.get T + 1) % U64 ∧
    (m.get T + 1 < U64 → (logFailure m msg).get T = m.get T + 1) ∧
    (m.lookup T = none → (logFailure m msg).lookup T = some 1) ∧
    (∀ k, k ≠ T → (logFailure m msg).lookup k = m.lookup k) := by
  have hfs : FindString msg = T := FindString_of_firstRun msg T h
  have hne : T ≠ "" := by
    obtain ⟨_, _, _, _, hne, _⟩ := h
    intro h0
    rw [h0] at hne
    exact hne rfl
  have hc : classify msg = T := by
    unfold classify
    rw [hfs, if_neg hne, if_neg hT]
  rw [logFailure_eq_count, hc]
  exact ⟨rfl, count_effect m T⟩

theorem logFailure_token_witness :
    IsFirstRun "failed: TEMPORARY_CHANNEL_FAILURE (reply from remote)"
      "TEMPORARY_CHANNEL_FAILURE" ∧
    "TEMPORARY_CHANNEL_FAILURE" ≠ BenignCode ∧
    logFailure [(Run, 1)] "failed: TEMPORARY_CHANNEL_FAILURE (reply from remote)" =
      [(Run, 1), ("TEMPORARY_CHANNEL_FAILURE", 1)] := by
  have hrun : IsFirstRun "failed: TEMPORARY_CHANNEL_FAILURE (reply from remote)"
      "TEMPORARY_CHANNEL_FAILURE" :=
    ⟨"failed: ".toList, " (reply from remote)".toList, by decide, by decide, by decide,
      by decide, by intro c hc; cases hc; decide⟩
  have hne : "TEMPORARY_CHANNEL_FAILURE" ≠ BenignCode := by decide
  refine ⟨hrun, hne, ?_⟩
  rw [(logFailure_token [(Run, 1)] _ _ hrun hne).1]
  decide

/-! ## countFailures -/

/-- C5: for every counter map, `countFailures` returns the sum modulo `2^64`
of the values of all keys other than `success` and `runs_started`, whatever
the order in which the loop visits the entries, and leaves the map as it was;
a counter created under any other name is part of the sum. -/
theorem countFailures_sum (m : ReportSet) (hwf : m.WF) :
    (∀ order : List (String × Nat), order.Perm m →
      countFailuresLoop order = failureSum m % U64) ∧
    (countFailures m).1 = failureSum m % U64 ∧
    (countFailures m).2 = m ∧
    (∀ k, k ≠ Success → k ≠ Run →
      (countFailures (count m k)).1 = ((countFailures m).1 + 1) % U64) := by
  have hkeys : failureSum m = sumP isFailureKey m := (sumP_eq_keys isFailureKey m hwf).symm
  refine ⟨?_, ?_, rfl, ?_⟩
  · intro order hperm
    rw [countFailuresLoop_eq, sumP_perm isFailureKey m order hperm, hkeys]
  · show countFailuresLoop m = _
    rw [countFailuresLoop_eq, hkeys]
  · intro k h1 h2
    have hf : isFailureKey k = true := by
      unfold isFailureKey
      simpa using ⟨h1, h2⟩
    show countFailuresLoop (count m k) = (countFailuresLoop m + 1) % U64
    rw [countFailuresLoop_eq, countFailuresLoop_eq, sumP_count_mod isFailureKey m k hf]
    simp

theorem countFailures_sum_witness :
    ReportSet.WF [(Run, 5), ("TEMPORARY_CHANNEL_FAILURE", 2), (Success, 2), (NoRouteFound, 1)] ∧
    countFailuresLoop
      [(NoRouteFound, 1), (Success, 2), (Run, 5), ("TEMPORARY_CHANNEL_FAILURE", 2)] = 3 ∧
    (countFailures
      [(Run, 5), ("TEMPORARY_CHANNEL_FAILURE", 2), (Success, 2), (NoRouteFound, 1)]).1 = 3 := by
  have hwf : ReportSet.WF
      [(Run, 5), ("TEMPORARY_CHANNEL_FAILURE", 2), (Success, 2), (NoRouteFound, 1)] := by
    decide
  have h := countFailures_sum _ hwf
  refine ⟨hwf, ?_, ?_⟩
  · rw [h.1 _ (by decide)]
    decide
  · rw [h.2.1]
    decide

/-! ## One cycle counts once -/

/-- C6, evaluated on the code: when the node answers `ListChannels` with an
empty list, the cycle faults after incrementing `runs_started`; no second
counter is incremented, every other counter is as it was. -/
theorem run_empty_list_counts_only_runs (ln : Lightning) (rnd : RandSource)
    (n amount : Nat) (m : ReportSet) (h : ln.ListChannels = .ok []) :
    (run ln rnd n amount m).fault = some Fault.divideByZero ∧
    (run ln rnd n amount m).reportSet = count m Run ∧
    (run ln rnd n amount m).reportSet.get Run = (m.get Run + 1) % U64 ∧
    (∀ k, k ≠ Run → (run ln rnd n amount m).reportSet.lookup k = m.lookup k) := by
  rw [run_eq_of_empty ln rnd n amount m h]
  exact ⟨rfl, rfl, get_count_self m Run, fun k hk => lookup_count_ne m Run k hk⟩

theorem run_empty_list_counts_only_runs_witness :
    (nodeNoRoute []).ListChannels = .ok [] ∧
    (run (nodeNoRoute []) zeroRand 3 1 [(Run, 2), (Success, 2)]).fault =
      some Fault.divideByZero ∧
    (run (nodeNoRoute []) zeroRand 3 1 [(Run, 2), (Success, 2)]).reportSet =
      [(Run, 3), (Success, 2)] := by
  have h := run_empty_list_counts_only_runs (nodeNoRoute []) zeroRand 3 1
    [(Run, 2), (Success, 2)] rfl
  refine ⟨rfl, h.1, ?_⟩
  rw [h.2.1]
  decide

/-! ## The balance of the report -/

/-- Starting from the empty report, after any number of cycles none of which
met an empty channel list, `runs_started` is the number of cycles and equals
the sum of all other counters, and the report made of the counters has
`Runs = Successes + Failures`; both hold in `uint64` arithmetic, and exactly as
long as fewer than `2^64` cycles ran. -/
theorem completed_cycles_balanced (amount : Nat) (freq : Int) (start : String)
    (cycles : List CycleInput)
    (hne : ∀ c ∈ cycles, c.ln.ListChannels ≠ .ok []) :
    ∃ m, runCycles amount cycles 0 [] = ⟨m, none⟩ ∧
      m.get Run = cycles.length % U64 ∧
      otherSum m % U64 = m.get Run ∧
      (Report.Call freq start m).Runs = m.get Run ∧
      (Report.Call freq start m).Successes = m.get Success ∧
      (Report.Call freq start m).Failures = failureSum m % U64 ∧
      (Report.Call freq start m).Runs =
        ((Report.Call freq start m).Successes + (Report.Call freq start m).Failures) % U64 ∧
      (cycles.length < U64 →
        otherSum m = m.get Run ∧
        (Report.Call freq start m).Runs =
          (Report.Call freq start m).Successes + (Report.Call freq start m).Failures) := by
  obtain ⟨m, hm, hwf, hruns, hoth, hspl, hex⟩ :=
    runCycles_balanced amount cycles hne 0 0 [] Balanced_empty
  rw [Nat.zero_add] at hruns hoth hspl hex
  have hkeys : otherSum m = sumP (fun k => decide (k ≠ Run)) m :=
    (sumP_eq_keys _ m hwf).symm
  have hfail : (Report.Call freq start m).Failures = sumP isFailureKey m % U64 :=
    countFailuresLoop_eq m
  have hfkeys : failureSum m = sumP isFailureKey m := (sumP_eq_keys isFailureKey m hwf).symm
  have hR : (Report.Call freq start m).Runs = m.get Run := rfl
  have hS : (Report.Call freq start m).Successes = m.get Success := rfl
  refine ⟨m, hm, hruns, ?_, hR, hS, ?_, ?_, ?_⟩
  · rw [hkeys, hoth, hruns]
  · rw [hfail, hfkeys]
  · rw [hR, hS, hfail, hruns, ← hspl, U64_eq]
    omega
  · intro hlt
    obtain ⟨e1, e2⟩ := hex hlt
    rw [hR, hS, hfail, hkeys, hruns, e1]
    rw [U64_eq] at hlt ⊢
    omega

/-- C7, evaluated on the code: after any number of cycles that returned, a
cycle that meets an empty channel list panics having counted `runs_started`
only. While its deferred `reschedule` waits on the timer the report is read
with `runs_started` one more than the sum of all other counters, and
`Report.Call` answers with `Runs` different from `Successes + Failures`. -/
theorem report_unbalanced_after_empty_list (amount : Nat) (freq : Int) (start : String)
    (pre : List CycleInput) (c : CycleInput) (cs : List CycleInput)
    (hpre : ∀ p ∈ pre, p.ln.ListChannels ≠ .ok []) (h : c.ln.ListChannels = .ok []) :
    (runCycles amount (pre ++ c :: cs) 0 []).fault = some Fault.divideByZero ∧
    (runCycles amount (pre ++ c :: cs) 0 []).reportSet.get Run = (pre.length + 1) % U64 ∧
    otherSum (runCycles amount (pre ++ c :: cs) 0 []).reportSet % U64 = pre.length % U64 ∧
    otherSum (runCycles amount (pre ++ c :: cs) 0 []).reportSet % U64 ≠
      (runCycles amount (pre ++ c :: cs) 0 []).reportSet.get Run ∧
    (Report.Call freq start (runCycles amount (pre ++ c :: cs) 0 []).reportSet).Runs =
      (runCycles amount (pre ++ c :: cs) 0 []).reportSet.get Run ∧
    (Report.Call freq start (runCycles amount (pre ++ c :: cs) 0 []).reportSet).Successes =
      (runCycles amount (pre ++ c :: cs) 0 []).reportSet.get Success ∧
    (Report.Call freq start (runCycles amount (pre ++ c :: cs) 0 []).reportSet).Failures =
      failureSum (runCycles amount (pre ++ c :: cs) 0 []).reportSet % U64 ∧
    ((Report.Call freq start (runCycles amount (pre ++ c :: cs) 0 []).reportSet).Successes +
      (Report.Call freq start (runCycles amount (pre ++ c :: cs) 0 []).reportSet).Failures) %
      U64 = pre.length % U64 ∧
    (Report.Call freq start (runCycles amount (pre ++ c :: cs) 0 []).reportSet).Runs ≠
      ((Report.Call freq start (runCycles amount (pre ++ c :: cs) 0 []).reportSet).Successes +
        (Report.Call freq start (runCycles amount (pre ++ c :: cs) 0 []).reportSet).Failures) %
        U64 := by
  obtain ⟨m, ⟨hwf, hruns, hoth, hspl, _⟩, hm⟩ :=
    runCycles_fault_after amount pre c cs hpre h 0 0 [] Balanced_empty
  rw [Nat.zero_add] at hruns hoth hspl
  rw [hm]
  have hwf' : ReportSet.WF (count m Run) := WF_count m Run hwf
  have hrun : (count m Run).get Run = (pre.length + 1) % U64 := by
    rw [get_count_self, hruns, U64_eq]
    omega
  have hkeys : otherSum (count m Run) = sumP (fun k => decide (k ≠ Run)) m := by
    have h1 : otherSum (count m Run) = sumP (fun k => decide (k ≠ Run)) (count m Run) :=
      (sumP_eq_keys _ _ hwf').symm
    rw [h1, sumP_count_of_not _ m Run (by simp)]
  have hsucc : (count m Run).get Success = m.get Success :=
    get_count_ne m Run Success (by decide)
  have hfs : sumP isFailureKey (count m Run) = sumP isFailureKey m :=
    sumP_count_of_not _ m Run (by decide)
  have hfail : (Report.Call freq start (count m Run)).Failures =
      sumP isFailureKey m % U64 := by
    have h1 : (Report.Call freq start (count m Run)).Failures =
        sumP isFailureKey (count m Run) % U64 := countFailuresLoop_eq _
    rw [h1, hfs]
  have hfkeys : failureSum (count m Run) = sumP isFailureKey m := by
    rw [← hfs]
    exact (sumP_eq_keys isFailureKey _ hwf').symm
  have hR : (Report.Call freq start (count m Run)).Runs = (count m Run).get Run := rfl
  have hS : (Report.Call freq start (count m Run)).Successes =
      (count m Run).get Success := rfl
  have hsum : ((Report.Call freq start (count m Run)).Successes +
      (Report.Call freq start (count m Run)).Failures) % U64 = pre.length % U64 := by
    rw [hS, hfail, hsucc, ← hspl, U64_eq]
    omega
  refine ⟨rfl, hrun, ?_, ?_, hR, hS, ?_, hsum, ?_⟩
  · show otherSum (count m Run) % U64 = _
    rw [hkeys, hoth]
  · show otherSum (count m Run) % U64 ≠ (count m Run).get Run
    rw [hkeys, hoth, hrun, U64_eq]
    omega
  · show (Report.Call freq start (count m Run)).Failures = failureSum (count m Run) % U64
    rw [hfail, hfkeys]
  · rw [hsum, hR, hrun, U64_eq]
    omega

theorem report_unbalanced_after_empty_list_witness :
    (∀ p ∈ [CycleInput.mk (nodeNoRoute [⟨"02aa", true⟩]) zeroRand],
      p.ln.ListChannels ≠ .ok []) ∧
    (CycleInput.mk (nodeFailing [] "x") zeroRand).ln.ListChannels = .ok [] ∧
    (runCycles 1 ([CycleInput.mk (nodeNoRoute [⟨"02aa", true⟩]) zeroRand] ++
      CycleInput.mk (nodeFailing [] "x") zeroRand :: []) 0 []).reportSet =
      [(Run, 2), (NoRouteFound, 1)] ∧
    (Report.Call 60 "2019-03-01T10:00:00+0000"
      (runCycles 1 ([CycleInput.mk (nodeNoRoute [⟨"02aa", true⟩]) zeroRand] ++
        CycleInput.mk (nodeFailing [] "x") zeroRand :: []) 0 []).reportSet).Runs ≠
      ((Report.Call 60 "2019-03-01T10:00:00+0000"
        (runCycles 1 ([CycleInput.mk (nodeNoRoute [⟨"02aa", true⟩]) zeroRand] ++
          CycleInput.mk (nodeFailing [] "x") zeroRand :: []) 0 []).reportSet).Successes +
        (Report.Call 60 "2019-03-01T10:00:00+0000"
          (runCycles 1 ([CycleInput.mk (nodeNoRoute [⟨"02aa", true⟩]) zeroRand] ++
            CycleInput.mk (nodeFailing [] "x") zeroRand :: []) 0 []).reportSet).Failures) %
        U64 := by
  have hpre : ∀ p ∈ [CycleInput.mk (nodeNoRoute [⟨"02aa", true⟩]) zeroRand],
      p.ln.ListChannels ≠ .ok [] := by
    intro p hp
    simp only [List.mem_singleton] at hp
    subst hp
    simp [nodeNoRoute]
  exact ⟨hpre, rfl, by decide,
    (report_unbalanced_after_empty_list 1 60 "2019-03-01T10:00:00+0000"
      [CycleInput.mk (nodeNoRoute [⟨"02aa", true⟩]) zeroRand]
      (CycleInput.mk (nodeFailing [] "x") zeroRand) [] hpre rfl).2.2.2.2.2.2.2.2⟩

/-! ## Channel selection -/

/-- C8: for every non-empty channel list without an active channel, and every
sequence of draws, the selection loop makes exactly 1000 draws and finds no
channel; the cycle records `no_active_channel_found` and, besides
`runs_started`, nothing else, and its only call to the node is `ListChannels`:
no route is requested and no payment is sent. -/
theorem run_all_inactive (ln : Lightning) (rnd : RandSource) (n amount : Nat)
    (m : ReportSet) (channels : List Channel)
    (h : ln.ListChannels = .ok channels) (hne : channels ≠ [])
    (hin : ∀ c ∈ channels, c.IsActive = false) :
    (selectLoop channels rnd.Int 1000 0 default).draws = 1000 ∧
    (selectLoop channels rnd.Int 1000 0 default).ok = false ∧
    run ln rnd n amount m =
      ⟨count (count m Run) NoActiveChannelFound, [.ListChannels], 1000, none, n⟩ ∧
    (run ln rnd n amount m).reportSet.get NoActiveChannelFound =
      (m.get NoActiveChannelFound + 1) % U64 ∧
    (run ln rnd n amount m).reportSet.get Run = (m.get Run + 1) % U64 ∧
    (∀ k, k ≠ Run → k ≠ NoActiveChannelFound →
      (run ln rnd n amount m).reportSet.lookup k = m.lookup k) := by
  have hlen : channels.length ≠ 0 := fun h0 => hne (List.length_eq_zero.mp h0)
  have hf := selectLoop_fault channels rnd.Int hlen 1000 0 default
  obtain ⟨hd, hok⟩ := selectLoop_inactive channels rnd.Int hlen hin 1000 0 default
  have hrun := run_eq_of_not_ok ln rnd n amount m channels h hf hok
  rw [hd] at hrun
  rw [hrun]
  refine ⟨by omega, hok, rfl, ?_, ?_, ?_⟩
  · show (count (count m Run) NoActiveChannelFound).get NoActiveChannelFound = _
    rw [get_count_self, get_count_ne m Run NoActiveChannelFound (by decide)]
  · show (count (count m Run) NoActiveChannelFound).get Run = _
    rw [get_count_ne _ NoActiveChannelFound Run (by decide), get_count_self]
  · intro k h1 h2
    show (count (count m Run) NoActiveChannelFound).lookup k = _
    rw [lookup_count_ne _ _ _ h2, lookup_count_ne _ _ _ h1]

theorem run_all_inactive_witness :
    (nodeFailing [⟨"02aa", false⟩, ⟨"03bb", false⟩] "x").ListChannels =
      .ok [⟨"02aa", false⟩, ⟨"03bb", false⟩] ∧
    run (nodeFailing [⟨"02aa", false⟩, ⟨"03bb", false⟩] "x") stepRand 1 1 [] =
      ⟨count (count [] Run) NoActiveChannelFound, [.ListChannels], 1000, none, 1⟩ :=
  ⟨rfl, (run_all_inactive (nodeFailing [⟨"02aa", false⟩, ⟨"03bb", false⟩] "x") stepRand 1 1 []
    [⟨"02aa", false⟩, ⟨"03bb", false⟩] rfl (by decide) (by decide)).2.2.1⟩

/-- C9: whenever a cycle requests a route, the request is for the
`Destination` of a channel of the node's list whose `IsActive` flag is set,
namely the channel at the first of the (at most 1000) drawn indices whose
channel is active, with the probe amount and at most 5 hops; and whenever one
of the first 1000 draws hits an active channel, the cycle does request that
route. -/
theorem run_selects_first_active (ln : Lightning) (rnd : RandSource) (n amount : Nat)
    (m : ReportSet) (channels : List Channel) (h : ln.ListChannels = .ok channels) :
    (∀ d a hops, HostCall.GetRouteSimple d a hops ∈ (run ln rnd n amount m).calls →
      ∃ j, j < 1000 ∧ ∃ c, channels[rnd.Int j % channels.length]? = some c ∧
        c ∈ channels ∧ c.IsActive = true ∧
        (∀ j', j' < j → ∀ c', channels[rnd.Int j' % channels.length]? = some c' →
          c'.IsActive = false) ∧
        d = c.Destination ∧ a = amount ∧ hops = 5) ∧
    ((∃ j, j < 1000 ∧ ∃ c, channels[rnd.Int j % channels.length]? = some c ∧
        c.IsActive = true) →
      ∃ c, c ∈ channels ∧ c.IsActive = true ∧
        HostCall.GetRouteSimple c.Destination amount 5 ∈ (run ln rnd n amount m).calls) := by
  constructor
  · intro d a hops hmem
    rcases hsf : (selectLoop channels rnd.Int 1000 0 default).fault with _ | f
    · rcases hok : (selectLoop channels rnd.Int 1000 0 default).ok with _ | _
      · rw [run_eq_of_not_ok ln rnd n amount m channels h hsf hok] at hmem
        simp at hmem
      · obtain ⟨rest, hcalls, hrest⟩ := run_selected_calls ln rnd n amount m channels h hsf hok
        obtain ⟨j, _, hj, _, hc, hact, hfirst⟩ :=
          selectLoop_sound channels rnd.Int 1000 0 default hok
        rw [hcalls] at hmem
        simp only [List.mem_cons, HostCall.GetRouteSimple.injEq] at hmem
        rcases hmem with hmem | hmem | hmem
        · cases hmem
        · obtain ⟨rfl, rfl, rfl⟩ := hmem
          refine ⟨j, by omega, _, hc, List.getElem?_mem hc, hact, ?_, rfl, rfl, rfl⟩
          intro j' hj' c' hc'
          exact hfirst j' (Nat.zero_le _) hj' c' hc'
        · exact absurd hmem (hrest d a hops)
    · have hrun : (run ln rnd n amount m).calls = [HostCall.ListChannels] := by
        simp [run, h, hsf]
      rw [hrun] at hmem
      simp at hmem
  · rintro ⟨j, hj, c, hc, hact⟩
    obtain ⟨hok, hsf⟩ := selectLoop_complete channels rnd.Int 1000 0 default
      ⟨j, Nat.zero_le _, by omega, c, hc, hact⟩
    obtain ⟨rest, hcalls, _⟩ := run_selected_calls ln rnd n amount m channels h hsf hok
    obtain ⟨j0, _, _, _, hc0, hact0, _⟩ :=
      selectLoop_sound channels rnd.Int 1000 0 default hok
    refine ⟨_, List.getElem?_mem hc0, hact0, ?_⟩
    rw [hcalls]
    simp

theorem run_selects_first_active_witness :
    (nodeNoRoute [⟨"02aa", false⟩, ⟨"03bb", true⟩]).ListChannels =
      .ok [⟨"02aa", false⟩, ⟨"03bb", true⟩] ∧
    (∃ j, j < 1000 ∧ ∃ c, [Channel.mk "02aa" false, ⟨"03bb", true⟩][stepRand.Int j %
        [Channel.mk "02aa" false, ⟨"03bb", true⟩].length]? = some c ∧ c.IsActive = true) ∧
    ∃ c, c ∈ [Channel.mk "02aa" false, ⟨"03bb", true⟩] ∧ c.IsActive = true ∧
      HostCall.GetRouteSimple c.Destination 7 5 ∈
        (run (nodeNoRoute [⟨"02aa", false⟩, ⟨"03bb", true⟩]) stepRand 1 7 []).calls := by
  have hex : ∃ j, j < 1000 ∧ ∃ c, [Channel.mk "02aa" false, ⟨"03bb", true⟩][stepRand.Int j %
      [Channel.mk "02aa" false, ⟨"03bb", true⟩].length]? = some c ∧ c.IsActive = true :=
    ⟨1, by decide, ⟨"03bb", true⟩, by decide, rfl⟩
  exact ⟨rfl, hex, (run_selects_first_active (nodeNoRoute [⟨"02aa", false⟩, ⟨"03bb", true⟩])
    stepRand 1 7 [] _ rfl).2 hex⟩

/-! ## Route lookup -/

/-- C10: for every cycle in which a channel is selected and the node's route
lookup to its destination fails, `run` records `no_route_found` and, besides
`runs_started`, nothing else, and returns: its calls to the node are
`ListChannels` and `GetRouteSimple` only, neither `SendPayLite` nor
`WaitSendPay` is called. -/
theorem run_no_route_found (ln : Lightning) (rnd : RandSource) (n amount : Nat)
    (m : ReportSet) (channels : List Channel) (e : String)
    (h : ln.ListChannels = .ok channels)
    (hok : (selectLoop channels rnd.Int 1000 0 default).ok = true)
    (hr : ln.GetRouteSimple (selectLoop channels rnd.Int 1000 0 default).channel.Destination
      amount 5 = .error e) :
    (run ln rnd n amount m).fault = none ∧
    (run ln rnd n amount m).reportSet = count (count m Run) NoRouteFound ∧
    (run ln rnd n amount m).reportSet.get NoRouteFound = (m.get NoRouteFound + 1) % U64 ∧
    (run ln rnd n amount m).reportSet.get Run = (m.get Run + 1) % U64 ∧
    (∀ k, k ≠ Run → k ≠ NoRouteFound →
      (run ln rnd n amount m).reportSet.lookup k = m.lookup k) ∧
    (run ln rnd n amount m).calls = [.ListChannels, .GetRouteSimple
      (selectLoop channels rnd.Int 1000 0 default).channel.Destination amount 5] ∧
    (∀ route hash, HostCall.SendPayLite route hash ∉ (run ln rnd n amount m).calls) ∧
    (∀ hash t, HostCall.WaitSendPay hash t ∉ (run ln rnd n amount m).calls) := by
  have hsf := selectLoop_ok_fault channels rnd.Int 1000 0 default hok
  rw [run_eq_of_route_error ln rnd n amount m channels e h hsf hok hr]
  refine ⟨rfl, rfl, ?_, ?_, ?_, rfl, ?_, ?_⟩
  · show (count (count m Run) NoRouteFound).get NoRouteFound = _
    rw [get_count_self, get_count_ne m Run NoRouteFound (by decide)]
  · show (count (count m Run) NoRouteFound).get Run = _
    rw [get_count_ne _ NoRouteFound Run (by decide), get_count_self]
  · intro k h1 h2
    show (count (count m Run) NoRouteFound).lookup k = _
    rw [lookup_count_ne _ _ _ h2, lookup_count_ne _ _ _ h1]
  · intro route hash
    simp
  · intro hash t
    simp

theorem run_no_route_found_witness :
    (nodeNoRoute [⟨"02aa", true⟩]).ListChannels = .ok [⟨"02aa", true⟩] ∧
    (selectLoop [⟨"02aa", true⟩] zeroRand.Int 1000 0 default).ok = true ∧
    (nodeNoRoute [⟨"02aa", true⟩]).GetRouteSimple
      (selectLoop [⟨"02aa", true⟩] zeroRand.Int 1000 0 default).channel.Destination 1 5 =
      .error "Could not find a route" ∧
    (run (nodeNoRoute [⟨"02aa", true⟩]) zeroRand 1 1 []).reportSet =
      [(Run, 1), (NoRouteFound, 1)] ∧
    (run (nodeNoRoute [⟨"02aa", true⟩]) zeroRand 1 1 []).calls =
      [.ListChannels, .GetRouteSimple "02aa" 1 5] := by
  have h := run_no_route_found (nodeNoRoute [⟨"02aa", true⟩]) zeroRand 1 1 []
    [⟨"02aa", true⟩] "Could not find a route" rfl (by decide) rfl
  refine ⟨rfl, by decide, rfl, ?_, ?_⟩
  · rw [h.2.1]
    decide
  · rw [h.2.2.2.2.2.1]
    decide

/-! ## Payment submission and the channel list call -/

theorem run_eq_of_sendpay_error (ln : Lightning) (rnd : RandSource) (n amount : Nat)
    (m : ReportSet) (channels : List Channel) (route : Route) (e : String)
    (h : ln.ListChannels = .ok channels)
    (hf : (selectLoop channels rnd.Int 1000 0 default).fault = none)
    (hok : (selectLoop channels rnd.Int 1000 0 default).ok = true)
    (hr : ln.GetRouteSimple (selectLoop channels rnd.Int 1000 0 default).channel.Destination
      amount 5 = .ok route)
    (hs : ln.SendPayLite route (randomPayHash rnd) = .error e) :
    run ln rnd n amount m =
      ⟨count (count m Run) SendPayFailed,
        [.ListChannels, .GetRouteSimple
          (selectLoop channels rnd.Int 1000 0 default).channel.Destination amount 5,
          .SendPayLite route (randomPayHash rnd)],
        (selectLoop channels rnd.Int 1000 0 default).draws, none, n⟩ := by
  simp [run, h, hf, hok, hr, hs]

/-- The three shapes of the name `logFailure` counts under. -/
theorem classify_cases (msg : String) :
    classify msg = Success ∨ classify msg = UnknownError ∨
      ((classify msg).toList ≠ [] ∧ ∀ c ∈ (classify msg).toList, inClass c = true) := by
  unfold classify
  split
  · exact Or.inr (Or.inl rfl)
  · split
    · exact Or.inl rfl
    · rename_i h1 _
      refine Or.inr (Or.inr ⟨?_, FindString_inClass msg⟩)
      intro h0
      apply h1
      have : FindString msg = String.mk (FindString msg).toList := rfl
      rw [this, h0]

/-- A name with a character outside `[A-Z_]`, other than `success` and
`unknown_error`, is never the name `logFailure` counts under. -/
theorem classify_ne_of_char (msg k : String) (c : Char) (hc : c ∈ k.toList)
    (hnc : inClass c = false) (h1 : k ≠ Success) (h2 : k ≠ UnknownError) :
    classify msg ≠ k := by
  intro h
  rcases classify_cases msg with hs | hu | ⟨_, hall⟩
  · exact h1 (h ▸ hs)
  · exact h2 (h ▸ hu)
  · rw [h] at hall
    have := hall c hc
    rw [hnc] at this
    cases this

/-- C11: for every cycle in which a route is found and `SendPayLite` returns an
error, `run` records `sendpay_call_failed` and, besides `runs_started`, nothing
else, and returns: `WaitSendPay` is not called, and the error message is not
classified, whatever it contains: the counter `logFailure` would count it
under is left as it was. -/
theorem run_sendpay_call_failed (ln : Lightning) (rnd : RandSource) (n amount : Nat)
    (m : ReportSet) (channels : List Channel) (route : Route) (e : String)
    (h : ln.ListChannels = .ok channels)
    (hok : (selectLoop channels rnd.Int 1000 0 default).ok = true)
    (hr : ln.GetRouteSimple (selectLoop channels rnd.Int 1000 0 default).channel.Destination
      amount 5 = .ok route)
    (hs : ln.SendPayLite route (randomPayHash rnd) = .error e) :
    (run ln rnd n amount m).fault = none ∧
    (run ln rnd n amount m).reportSet = count (count m Run) SendPayFailed ∧
    (run ln rnd n amount m).reportSet.get SendPayFailed = (m.get SendPayFailed + 1) % U64 ∧
    (run ln rnd n amount m).reportSet.get Run = (m.get Run + 1) % U64 ∧
    (∀ k, k ≠ Run → k ≠ SendPayFailed →
      (run ln rnd n amount m).reportSet.lookup k = m.lookup k) ∧
    (run ln rnd n amount m).reportSet.lookup (classify e) = m.lookup (classify e) ∧
    (run ln rnd n amount m).calls = [.ListChannels, .GetRouteSimple
      (selectLoop channels rnd.Int 1000 0 default).channel.Destination amount 5,
      .SendPayLite route (randomPayHash rnd)] ∧
    (∀ hash t, HostCall.WaitSendPay hash t ∉ (run ln rnd n amount m).calls) := by
  have hsf := selectLoop_ok_fault channels rnd.Int 1000 0 default hok
  rw [run_eq_of_sendpay_error ln rnd n amount m channels route e h hsf hok hr hs]
  have hother : ∀ k, k ≠ Run → k ≠ SendPayFailed →
      (count (count m Run) SendPayFailed).lookup k = m.lookup k := by
    intro k h1 h2
    rw [lookup_count_ne _ _ _ h2, lookup_count_ne _ _ _ h1]
  refine ⟨rfl, rfl, ?_, ?_, hother, ?_, rfl, ?_⟩
  · show (count (count m Run) SendPayFailed).get SendPayFailed = _
    rw [get_count_self, get_count_ne m Run SendPayFailed (by decide)]
  · show (count (count m Run) SendPayFailed).get Run = _
    rw [get_count_ne _ SendPayFailed Run (by decide), get_count_self]
  · exact hother _ (classify_ne_run e)
      (classify_ne_of_char e SendPayFailed 's' (by decide) (by decide) (by decide) (by decide))
  · intro hash t
    simp

theorem run_sendpay_call_failed_witness :
    (nodeSendPayFails [⟨"02aa", true⟩] "WIRE_TEMPORARY_CHANNEL_FAILURE").ListChannels =
      .ok [⟨"02aa", true⟩] ∧
    (selectLoop [⟨"02aa", true⟩] zeroRand.Int 1000 0 default).ok = true ∧
    (run (nodeSendPayFails [⟨"02aa", true⟩] "WIRE_TEMPORARY_CHANNEL_FAILURE")
      zeroRand 1 1 []).reportSet = [(Run, 1), (SendPayFailed, 1)] ∧
    (run (nodeSendPayFails [⟨"02aa", true⟩] "WIRE_TEMPORARY_CHANNEL_FAILURE")
      zeroRand 1 1 []).calls =
      [.ListChannels, .GetRouteSimple "02aa" 1 5,
        .SendPayLite [⟨"02aa", "1x1x1", 1, 9⟩] (randomPayHash zeroRand)] := by
  have hd : (selectLoop [⟨"02aa", true⟩] zeroRand.Int 1000 0 default).channel.Destination =
      "02aa" := by decide
  have h := run_sendpay_call_failed
    (nodeSendPayFails [⟨"02aa", true⟩] "WIRE_TEMPORARY_CHANNEL_FAILURE") zeroRand 1 1 []
    [⟨"02aa", true⟩] [⟨"02aa", "1x1x1", 1, 9⟩] "WIRE_TEMPORARY_CHANNEL_FAILURE"
    rfl (by decide) (by rw [hd]; rfl) rfl
  refine ⟨rfl, by decide, ?_, ?_⟩
  · rw [h.2.1]
    decide
  · rw [h.2.2.2.2.2.2.1, hd]

/-- C12: for every cycle in which `ListChannels` itself returns an error, `run`
records `channels_unavailable` and, besides `runs_started`, nothing else (in
particular not `no_active_channel_found`), and returns before any draw, route
lookup or payment: `ListChannels` is its only call to the node. -/
theorem run_channels_unavailable (ln : Lightning) (rnd : RandSource) (n amount : Nat)
    (m : ReportSet) (e : String) (h : ln.ListChannels = .error e) :
    (run ln rnd n amount m).fault = none ∧
    (run ln rnd n amount m).reportSet = count (count m Run) ChannelsUnavailable ∧
    (run ln rnd n amount m).reportSet.get ChannelsUnavailable =
      (m.get ChannelsUnavailable + 1) % U64 ∧
    (run ln rnd n amount m).reportSet.get Run = (m.get Run + 1) % U64 ∧
    (∀ k, k ≠ Run → k ≠ ChannelsUnavailable →
      (run ln rnd n amount m).reportSet.lookup k = m.lookup k) ∧
    (run ln rnd n amount m).reportSet.lookup NoActiveChannelFound =
      m.lookup NoActiveChannelFound ∧
    (run ln rnd n amount m).draws = 0 ∧
    (run ln rnd n amount m).calls = [.ListChannels] := by
  rw [run_eq_of_channels_error ln rnd n amount m e h]
  have hother : ∀ k, k ≠ Run → k ≠ ChannelsUnavailable →
      (count (count m Run) ChannelsUnavailable).lookup k = m.lookup k := by
    intro k h1 h2
    rw [lookup_count_ne _ _ _ h2, lookup_count_ne _ _ _ h1]
  refine ⟨rfl, rfl, ?_, ?_, hother, hother _ (by decide) (by decide), rfl, rfl⟩
  · show (count (count m Run) ChannelsUnavailable).get ChannelsUnavailable = _
    rw [get_count_self, get_count_ne m Run ChannelsUnavailable (by decide)]
  · show (count (count m Run) ChannelsUnavailable).get Run = _
    rw [get_count_ne _ ChannelsUnavailable Run (by decide), get_count_self]

theorem run_channels_unavailable_witness :
    (nodeNoChannels "rpc connection refused").ListChannels = .error "rpc connection refused" ∧
    (run (nodeNoChannels "rpc connection refused") zeroRand 1 1 []).reportSet =
      [(Run, 1), (ChannelsUnavailable, 1)] ∧
    (run (nodeNoChannels "rpc connection refused") zeroRand 1 1 []).calls =
      [.ListChannels] := by
  have h := run_channels_unavailable (nodeNoChannels "rpc connection refused") zeroRand 1 1 []
    "rpc connection refused" rfl
  refine ⟨rfl, ?_, h.2.2.2.2.2.2.2⟩
  rw [h.2.1]
  decide

/-! ## Lemmas on option parsing -/

theorem digitVal_of_isDigit (c : Char) (h : isDigit c = true) :
    digitVal c = some (c.toNat - 48) := by
  unfold isDigit at h
  unfold digitVal
  simp only [Bool.and_eq_true, decide_eq_true_eq] at h
  rw [if_pos h]

theorem digitVal_of_not_isDigit (c : Char) (h : isDigit c = false) :
    digitVal c = none := by
  unfold isDigit at h
  unfold digitVal
  have h' : ¬ (48 ≤ c.toNat ∧ c.toNat ≤ 57) := by
    intro hc
    simp [hc.1, hc.2] at h
  rw [if_neg h']

theorem le_decValueFrom (s : List Char) (n : Nat) : n ≤ decValueFrom n s := by
  induction s generalizing n with
  | nil => exact le_refl _
  | cons c cs ih =>
    have := ih (n * 10 + (c.toNat - 48))
    unfold decValueFrom at this ⊢
    rw [List.foldl_cons]
    omega

theorem cutoff_eq : (U64 - 1) / 10 + 1 = 1844674407370955162 := by decide

/-- The loop of `ParseUint` succeeds exactly on digits that stay below `2^64`,
and then returns the number they denote. -/
theorem parseUintLoop_ok_iff (s : List Char) (n v : Nat) (hn : n < U64) :
    parseUintLoop s n = .ok v ↔
      (∀ c ∈ s, isDigit c = true) ∧ decValueFrom n s = v ∧ v < U64 := by
  induction s generalizing n with
  | nil =>
    simp only [parseUintLoop, decValueFrom, List.foldl_nil, Except.ok.injEq,
      List.not_mem_nil, false_implies, implies_true, true_and]
    constructor
    · intro h; subst h; exact ⟨rfl, hn⟩
    · intro h; exact h.1
  | cons c cs ih =>
    have hstep : decValueFrom n (c :: cs) = decValueFrom (n * 10 + (c.toNat - 48)) cs := rfl
    rcases hd : isDigit c with _ | _
    · rw [parseUintLoop, digitVal_of_not_isDigit c hd]
      constructor
      · intro h; cases h
      · intro h
        have := h.1 c (List.mem_cons_self _ _)
        rw [hd] at this
        cases this
    · rw [parseUintLoop, digitVal_of_isDigit c hd]
      have hmono := le_decValueFrom cs (n * 10 + (c.toNat - 48))
      have hall : (∀ d ∈ c :: cs, isDigit d = true) ↔ ∀ d ∈ cs, isDigit d = true := by
        constructor
        · intro h d hd'; exact h d (List.mem_cons_of_mem _ hd')
        · intro h d hd'
          rcases List.mem_cons.mp hd' with rfl | hd'
          · exact hd
          · exact h d hd'
      rw [hall, hstep]
      simp only []
      rw [cutoff_eq]
      rw [U64_eq] at hn ⊢
      by_cases h1 : n ≥ 1844674407370955162
      · rw [if_pos h1]
        constructor
        · intro h; cases h
        · rintro ⟨_, h2, h3⟩
          omega
      · rw [if_neg h1]
        by_cases h2 : n * 10 + (c.toNat - 48) > 18446744073709551616 - 1
        · rw [if_pos h2]
          constructor
          · intro h; cases h
          · rintro ⟨_, h3, h4⟩
            omega
        · rw [if_neg h2]
          have := ih (n * 10 + (c.toNat - 48)) (by rw [U64_eq]; omega)
          rw [U64_eq] at this
          exact this

theorem ParseUintChars_ok_iff (s : List Char) (v : Nat) :
    ParseUintChars s = .ok v ↔
      s ≠ [] ∧ (∀ c ∈ s, isDigit c = true) ∧ decValue s = v ∧ v < U64 := by
  unfold ParseUintChars decValue
  by_cases h : s = []
  · rw [if_pos h]
    constructor
    · intro h'; cases h'
    · intro h'; exact absurd h h'.1
  · rw [if_neg h, parseUintLoop_ok_iff s 0 v (by decide)]
    constructor
    · intro h'; exact ⟨h, h'⟩
    · intro h'; exact h'.2

/-- The call `ParseUint` succeeds exactly on the texts of unsigned 64-bit
integers, and then returns the number denoted. -/
theorem ParseUint_ok_iff (s : String) (v : Nat) :
    ParseUint s = .ok v ↔ IsUint64Text s ∧ decValue s.toList = v := by
  unfold ParseUint IsUint64Text
  rw [ParseUintChars_ok_iff]
  constructor
  · rintro ⟨h1, h2, h3, h4⟩
    exact ⟨⟨h1, h2, h3 ▸ h4⟩, h3⟩
  · rintro ⟨⟨h1, h2, h3⟩, h4⟩
    exact ⟨h1, h2, h4, h4 ▸ h3⟩

/-- What `Atoi` parses after the sign, and whether the sign is `-`. -/
theorem Atoi_cons (s : String) (c : Char) (cs : List Char) (hs : s.toList = c :: cs)
    (v : Int) :
    Atoi s = .ok v ↔
      ∃ un, ParseUintChars (if c = '+' ∨ c = '-' then cs else c :: cs) = .ok un ∧
        v = (if c = '-' then - (un : Int) else (un : Int)) ∧ - 2 ^ 63 ≤ v ∧ v < 2 ^ 63 := by
  unfold Atoi
  rw [hs]
  simp only []
  rcases hp : ParseUintChars (if c = '+' ∨ c = '-' then cs else c :: cs) with e | un
  · cases e <;> simp
  · by_cases hneg : c = '-'
    · simp only [hneg, decide_True, Bool.not_true, Bool.false_and, Bool.true_and,
        Bool.false_eq_true, if_false, if_true, decide_eq_true_eq, Except.ok.injEq,
        exists_eq_left']
      by_cases h1 : un > 2 ^ 63
      · rw [if_pos h1]
        constructor
        · intro h; cases h
        · rintro ⟨h2, h3, _⟩
          omega
      · rw [if_neg h1]
        constructor
        · intro h
          cases h
          refine ⟨rfl, ?_, ?_⟩ <;> omega
        · rintro ⟨h2, _, _⟩
          rw [h2]
    · simp only [hneg, decide_False, Bool.not_false, Bool.false_and, Bool.true_and,
        Bool.false_eq_true, if_false, decide_eq_true_eq, Except.ok.injEq,
        exists_eq_left']
      by_cases h1 : un ≥ 2 ^ 63
      · rw [if_pos h1]
        constructor
        · intro h; cases h
        · rintro ⟨h2, _, h3⟩
          omega
      · rw [if_neg h1]
        constructor
        · intro h
          cases h
          refine ⟨rfl, ?_, ?_⟩ <;> omega
        · rintro ⟨h2, _, _⟩
          rw [h2]

/-- The call `Atoi` succeeds exactly on the texts of integers of type `int`, and
then returns the integer denoted. -/
theorem Atoi_ok_iff (s : String) (v : Int) : Atoi s = .ok v ↔ IsIntText s v := by
  rcases hs : s.toList with _ | ⟨c, cs⟩
  · have hA : Atoi s = .error NumError.ErrSyntax := by
      unfold Atoi
      rw [hs]
    rw [hA]
    constructor
    · intro h; cases h
    · rintro ⟨sign, digits, h1, _, h3, _⟩
      rw [hs] at h1
      exact absurd (List.append_eq_nil.mp h1.symm).2 h3
  · rw [Atoi_cons s c cs hs v]
    unfold IsIntText
    rw [hs]
    constructor
    · rintro ⟨un, hp, hv, hlo, hhi⟩
      rw [ParseUintChars_ok_iff] at hp
      obtain ⟨hne, hall, hval, _⟩ := hp
      by_cases hplus : c = '+'
      · subst hplus
        simp only [true_or, if_true] at hne hall hval
        refine ⟨['+'], cs, rfl, Or.inr (Or.inl rfl), hne, hall, ?_, hlo, hhi⟩
        rw [hv, hval]
        simp
      · by_cases hminus : c = '-'
        · subst hminus
          simp only [or_true, if_true] at hne hall hval
          refine ⟨['-'], cs, rfl, Or.inr (Or.inr rfl), hne, hall, ?_, hlo, hhi⟩
          rw [hv, hval]
          simp
        · simp only [hplus, hminus, or_self, if_false] at hne hall hval
          refine ⟨[], c :: cs, rfl, Or.inl rfl, hne, hall, ?_, hlo, hhi⟩
          rw [hv, hval]
          simp [hminus]
    · rintro ⟨sign, digits, h1, hsign, hne, hall, hv, hlo, hhi⟩
      rcases hsign with rfl | rfl | rfl
      · simp only [List.nil_append] at h1
        subst h1
        have hc : isDigit c = true := hall c (List.mem_cons_self _ _)
        have hplus : c ≠ '+' := by
          intro h; subst h; revert hc; decide
        have hminus : c ≠ '-' := by
          intro h; subst h; revert hc; decide
        simp only [List.nil_eq, reduceCtorEq, if_false] at hv
        refine ⟨decValue (c :: cs), ?_, ?_, hlo, hhi⟩
        · rw [if_neg (not_or.mpr ⟨hplus, hminus⟩), ParseUintChars_ok_iff]
          refine ⟨hne, hall, rfl, ?_⟩
          rw [U64_eq]
          omega
        · rw [if_neg hminus, hv]
      · simp only [List.singleton_append, List.cons.injEq] at h1
        obtain ⟨rfl, rfl⟩ := h1
        simp only [List.cons.injEq, and_true, reduceCtorEq, if_false] at hv
        have hv' : v = (decValue cs : Int) := by
          rw [hv]
          simp
        refine ⟨decValue cs, ?_, ?_, hlo, hhi⟩
        · simp only [true_or, if_true]
          rw [ParseUintChars_ok_iff]
          refine ⟨hne, hall, rfl, ?_⟩
          rw [U64_eq]
          omega
        · rw [hv']
          simp
      · simp only [List.singleton_append, List.cons.injEq] at h1
        obtain ⟨rfl, rfl⟩ := h1
        simp only [if_true] at hv
        refine ⟨decValue cs, ?_, ?_, hlo, hhi⟩
        · simp only [or_true, if_true]
          rw [ParseUintChars_ok_iff]
          refine ⟨hne, hall, rfl, ?_⟩
          rw [U64_eq]
          omega
        · rw [hv]
          simp

/-- C13: for every option text, `parseFreq` returns the default 60 (and logs
the warning) when the text is not parsable as a base-10 integer of type `int`,
such as `abc` or the empty text, or when it parses to a value `≤ 0`; otherwise
it returns exactly the parsed value; so the interval is always strictly
positive. -/
theorem parseFreq_default (s : String) :
    ((∀ v, ¬ IsIntText s v) → parseFreq s = ⟨DefaultFreq, true⟩) ∧
    (∀ v, IsIntText s v → v ≤ 0 → parseFreq s = ⟨DefaultFreq, true⟩) ∧
    (∀ v, IsIntText s v → 0 < v → parseFreq s = ⟨v, false⟩) ∧
    0 < (parseFreq s).value ∧ DefaultFreq = 60 := by
  refine ⟨?_, ?_, ?_, ?_, rfl⟩
  · intro h
    unfold parseFreq
    rcases hA : Atoi s with e | v
    · rfl
    · exact absurd ((Atoi_ok_iff s v).mp hA) (h v)
  · intro v hv hle
    unfold parseFreq
    rw [(Atoi_ok_iff s v).mpr hv]
    simp only [hle, if_true]
  · intro v hv hpos
    unfold parseFreq
    rw [(Atoi_ok_iff s v).mpr hv]
    simp only [not_le.mpr hpos, if_false]
  · have hcases : parseFreq s = ⟨DefaultFreq, true⟩ ∨ ∃ v, 0 < v ∧ parseFreq s = ⟨v, false⟩ := by
      unfold parseFreq
      rcases hA : Atoi s with e | v
      · exact Or.inl rfl
      · by_cases hle : v ≤ 0
        · left
          simp only [hle, if_true]
        · right
          exact ⟨v, not_le.mp hle, by simp only [hle, if_false]⟩
    rcases hcases with h | ⟨v, hv, h⟩
    · rw [h]
      decide
    · rw [h]
      exact hv

theorem parseFreq_default_witness :
    (∀ v, ¬ IsIntText "abc" v) ∧ parseFreq "abc" = ⟨60, true⟩ ∧
    (∀ v, ¬ IsIntText "" v) ∧ parseFreq "" = ⟨60, true⟩ ∧
    IsIntText "-5" (-5) ∧ parseFreq "-5" = ⟨60, true⟩ ∧
    IsIntText "15" 15 ∧ parseFreq "15" = ⟨15, false⟩ := by
  have h1 : ∀ v, ¬ IsIntText "abc" v := by
    intro v hv
    have hA := (Atoi_ok_iff "abc" v).mpr hv
    have hE : Atoi "abc" = .error NumError.ErrSyntax := rfl
    rw [hE] at hA
    cases hA
  have h2 : ∀ v, ¬ IsIntText "" v := by
    intro v hv
    have hA := (Atoi_ok_iff "" v).mpr hv
    have hE : Atoi "" = .error NumError.ErrSyntax := rfl
    rw [hE] at hA
    cases hA
  have h3 : IsIntText "-5" (-5) :=
    ⟨['-'], ['5'], rfl, Or.inr (Or.inr rfl), by decide, by decide, by decide, by decide,
      by decide⟩
  have h4 : IsIntText "15" 15 :=
    ⟨[], ['1', '5'], rfl, Or.inl rfl, by decide, by decide, by decide, by decide, by decide⟩
  exact ⟨h1, (parseFreq_default "abc").1 h1, h2, (parseFreq_default "").1 h2,
    h3, (parseFreq_default "-5").2.1 (-5) h3 (by decide),
    h4, (parseFreq_default "15").2.2.1 15 h4 (by decide)⟩

/-- C14, counterexample: the text `1` is parsable as an unsigned base-10
64-bit integer and `parseAmount` returns 1 for it, the value of the default;
so returning the default value does not single out the unparsable texts. -/
theorem parseAmount_returns_default_counterexample :
    IsUint64Text "1" ∧ parseAmount "1" = ⟨1, false⟩ ∧
    (parseAmount "1").value = DefaultAmt ∧
    ¬ (∀ s, (parseAmount s).value = DefaultAmt ↔ ¬ IsUint64Text s) := by
  have h1 : IsUint64Text "1" := by unfold IsUint64Text; decide
  refine ⟨h1, by decide, by decide, ?_⟩
  intro hall
  exact (hall "1").mp (by decide) h1

/-- C14, amended: for every option text, `parseAmount` returns the default 1,
and logs the warning, when the text is not parsable as an unsigned base-10
64-bit integer (which covers negative numbers, signed forms, the empty text
and values from `2^64` on), and otherwise returns exactly the parsed value
without a warning, so that `0` yields the amount 0; the value returned is 1
exactly when the text is unparsable or parses to 1, and the warning is logged
exactly when the text is unparsable. -/
theorem parseAmount_default (s : String) :
    ((parseAmount s).warned = true ↔ ¬ IsUint64Text s) ∧
    (¬ IsUint64Text s → parseAmount s = ⟨DefaultAmt, true⟩) ∧
    (IsUint64Text s → parseAmount s = ⟨decValue s.toList, false⟩) ∧
    ((parseAmount s).value = DefaultAmt ↔ (¬ IsUint64Text s ∨ decValue s.toList = 1)) ∧
    DefaultAmt = 1 := by
  have hno : ¬ IsUint64Text s → parseAmount s = ⟨DefaultAmt, true⟩ := by
    intro h
    unfold parseAmount
    rcases hP : ParseUint s with e | v
    · rfl
    · exact absurd ((ParseUint_ok_iff s v).mp hP).1 h
  have hyes : IsUint64Text s → parseAmount s = ⟨decValue s.toList, false⟩ := by
    intro h
    unfold parseAmount
    rw [(ParseUint_ok_iff s (decValue s.toList)).mpr ⟨h, rfl⟩]
  refine ⟨?_, hno, hyes, ?_, rfl⟩
  · constructor
    · intro hw h
      rw [hyes h] at hw
      cases hw
    · intro h
      rw [hno h]
  · by_cases h : IsUint64Text s
    · rw [hyes h]
      constructor
      · intro hv
        exact Or.inr hv
      · rintro (hn | hv)
        · exact absurd h hn
        · exact hv
    · rw [hno h]
      exact ⟨fun _ => Or.inl h, fun _ => rfl⟩

theorem parseAmount_default_witness :
    ¬ IsUint64Text "-1" ∧ parseAmount "-1" = ⟨1, true⟩ ∧
    ¬ IsUint64Text "+1" ∧ parseAmount "+1" = ⟨1, true⟩ ∧
    ¬ IsUint64Text "" ∧ parseAmount "" = ⟨1, true⟩ ∧
    ¬ IsUint64Text "18446744073709551616" ∧
    parseAmount "18446744073709551616" = ⟨1, true⟩ ∧
    IsUint64Text "0" ∧ parseAmount "0" = ⟨0, false⟩ := by
  have h1 : ¬ IsUint64Text "-1" := by unfold IsUint64Text; decide
  have h2 : ¬ IsUint64Text "+1" := by unfold IsUint64Text; decide
  have h3 : ¬ IsUint64Text "" := by unfold IsUint64Text; decide
  have h4 : ¬ IsUint64Text "18446744073709551616" := by unfold IsUint64Text; decide
  have h5 : IsUint64Text "0" := by unfold IsUint64Text; decide
  exact ⟨h1, (parseAmount_default "-1").2.1 h1, h2, (parseAmount_default "+1").2.1 h2,
    h3, (parseAmount_default "").2.1 h3, h4,
    (parseAmount_default "18446744073709551616").2.1 h4,
    h5, (parseAmount_default "0").2.2.1 h5⟩

/-! ## The scheduler -/

theorem startedNumbers_append (a b : List SchedEvent) :
    startedNumbers (a ++ b) = startedNumbers a ++ startedNumbers b := by
  induction a with
  | nil => rfl
  | cons e rest ih =>
    cases e <;> simp [startedNumbers, ih]

theorem startedNumbers_rearm (freq : Int) (number : Nat) :
    startedNumbers (rearm freq number) = [number + 1] := by
  unfold rearm
  by_cases h : number ≠ 0
  · simp [h, startedNumbers]
  · simp [h, startedNumbers]

/-- As long as no cycle meets an empty channel list, the cycles started are
numbered consecutively and the process does not exit. -/
theorem reschedule_started (freq : Int) (amount : Nat) (cycles : List CycleInput)
    (hne : ∀ c ∈ cycles, c.ln.ListChannels ≠ .ok []) (number : Nat) (m : ReportSet) :
    startedNumbers (reschedule freq amount cycles number m) =
      List.range' (number + 1) (cycles.length + 1) ∧
    SchedEvent.exited ∉ reschedule freq amount cycles number m := by
  induction cycles generalizing number m with
  | nil =>
    refine ⟨?_, ?_⟩
    · simp [reschedule, startedNumbers_rearm, List.range']
    · unfold reschedule rearm
      by_cases h : number ≠ 0 <;> simp [h]
  | cons c cs ih =>
    have hf : (run c.ln c.rnd (number + 1) amount m).fault = none :=
      (run_fault_iff _ _ _ _ _).mpr (hne c (List.mem_cons_self _ _))
    have hd := run_deferred c.ln c.rnd (number + 1) amount m
    obtain ⟨ih1, ih2⟩ := ih (fun c' hc' => hne c' (List.mem_cons_of_mem _ hc'))
      (number + 1) (run c.ln c.rnd (number + 1) amount m).reportSet
    simp only [reschedule, hf, hd]
    refine ⟨?_, ?_⟩
    · rw [startedNumbers_append, startedNumbers_rearm]
      simp only [startedNumbers, List.singleton_append, List.length_cons]
      rw [ih1]
      rfl
    · intro hmem
      rcases List.mem_append.mp hmem with h | h
      · unfold rearm at h
        by_cases h0 : number ≠ 0 <;> simp [h0] at h
      · rcases List.mem_cons.mp h with h | h
        · cases h
        · exact ih2 h

/-- C15, evaluated on the code: when a cycle meets an empty channel list it
panics without having recorded an outcome; its deferred `reschedule` still
waits and starts the next cycle, and then the panic ends the process: however
many cycles the node could still answer, the cycles started from `onInit` on
are 1 and 2 and no more. -/
theorem reschedule_stops_on_empty_list (freq : Int) (amount : Nat) (c : CycleInput)
    (cs : List CycleInput) (h : c.ln.ListChannels = .ok []) :
    reschedule freq amount (c :: cs) 0 [] =
      [SchedEvent.started 1, SchedEvent.panicked 1 Fault.divideByZero,
        SchedEvent.timer (timerDuration freq), SchedEvent.started 2, SchedEvent.exited] ∧
    startedNumbers (reschedule freq amount (c :: cs) 0 []) = [1, 2] := by
  have hrun := run_eq_of_empty c.ln c.rnd 1 amount [] h
  have htrace : reschedule freq amount (c :: cs) 0 [] =
      [SchedEvent.started 1, SchedEvent.panicked 1 Fault.divideByZero,
        SchedEvent.timer (timerDuration freq), SchedEvent.started 2, SchedEvent.exited] := by
    simp [reschedule, hrun, rearm]
  rw [htrace]
  exact ⟨rfl, rfl⟩

theorem reschedule_stops_on_empty_list_witness :
    (CycleInput.mk (nodeFailing [] "x") zeroRand).ln.ListChannels = .ok [] ∧
    startedNumbers (reschedule 60 1
      [⟨nodeFailing [] "x", zeroRand⟩, ⟨nodeNoRoute [⟨"02aa", true⟩], zeroRand⟩,
        ⟨nodeNoRoute [⟨"02aa", true⟩], zeroRand⟩] 0 []) = [1, 2] :=
  ⟨rfl, (reschedule_stops_on_empty_list 60 1 ⟨nodeFailing [] "x", zeroRand⟩
    [⟨nodeNoRoute [⟨"02aa", true⟩], zeroRand⟩, ⟨nodeNoRoute [⟨"02aa", true⟩], zeroRand⟩]
    rfl).2⟩

/-- Up to 153722867 minutes the timer is set to exactly `freq` minutes. -/
theorem timerDuration_exact (freq : Int) (h1 : 0 < freq) (h2 : freq ≤ 153722867) :
    timerDuration freq = freq * Minute ∧ 0 < timerDuration freq := by
  have hin : ∀ x : Int, - 2 ^ 63 ≤ x → x < 2 ^ 63 → toInt64 x = x := by
    intro x hlo hhi
    unfold toInt64
    rw [Int.emod_eq_of_lt (by omega) (by omega)]
    omega
  unfold timerDuration Minute
  rw [hin freq (by omega) (by omega), hin (freq * (60 * 1000000000)) (by omega) (by omega)]
  constructor <;> omega

/-- C16, evaluated on the code: the option text `153722868` is a value
`parseFreq` returns as it is, and for it the product
`time.Duration(freq) * time.Minute` leaves `int64`: the timer is set to a
negative duration, not to 153722868 minutes. -/
theorem timerDuration_overflows :
    parseFreq "153722868" = ⟨153722868, false⟩ ∧
    timerDuration (parseFreq "153722868").value = -9223371993709551616 ∧
    timerDuration (parseFreq "153722868").value < 0 ∧
    timerDuration (parseFreq "153722868").value ≠ 153722868 * Minute := by
  have hp : parseFreq "153722868" = ⟨153722868, false⟩ := by decide
  rw [hp]
  exact ⟨rfl, by decide, by decide, by decide⟩

/-! ## The payment hash -/

theorem hexDigit_spec :
    ∀ n, n < 16 → hexVal (hexDigit n) = some n ∧ hexDigit n ∈ "0123456789abcdef".toList := by
  decide

theorem encode_decode (b : List Nat) (hb : ∀ v ∈ b, v < 256) :
    decodeHex (b.flatMap fun v => [hexDigit (v / 16), hexDigit (v % 16)]) = some b ∧
    (b.flatMap fun v => [hexDigit (v / 16), hexDigit (v % 16)]).length = 2 * b.length ∧
    ∀ c ∈ (b.flatMap fun v => [hexDigit (v / 16), hexDigit (v % 16)]),
      c ∈ "0123456789abcdef".toList := by
  induction b with
  | nil => simp [decodeHex]
  | cons v vs ih =>
    have hv : v < 256 := hb v (List.mem_cons_self _ _)
    obtain ⟨ih1, ih2, ih3⟩ := ih (fun w hw => hb w (List.mem_cons_of_mem _ hw))
    obtain ⟨hhi, hhi'⟩ := hexDigit_spec (v / 16) (by omega)
    obtain ⟨hlo, hlo'⟩ := hexDigit_spec (v % 16) (by omega)
    simp only [List.flatMap_cons, List.cons_append, List.nil_append]
    refine ⟨?_, ?_, ?_⟩
    · simp only [decodeHex, hhi, hlo, ih1]
      have : v / 16 * 16 + v % 16 = v := by omega
      rw [this]
    · simp only [List.length_cons, ih2]
      omega
    · intro c hc
      rcases List.mem_cons.mp hc with rfl | hc
      · exact hhi'
      · rcases List.mem_cons.mp hc with rfl | hc
        · exact hlo'
        · exact ih3 c hc

/-- C17: for every state of the random source, `randomPayHash` returns the
lowercase hexadecimal encoding of exactly 32 bytes: a text of exactly 64
characters, each among `0123456789abcdef`, which decodes to the 32 bytes
generated. -/
theorem randomPayHash_hex (rnd : RandSource) :
    (randomBytes rnd).length = 32 ∧
    (∀ b ∈ randomBytes rnd, b < 256) ∧
    randomPayHash rnd = EncodeToString (randomBytes rnd) ∧
    (randomPayHash rnd).length = 64 ∧
    (∀ c ∈ (randomPayHash rnd).toList, c ∈ "0123456789abcdef".toList) ∧
    decodeHex (randomPayHash rnd).toList = some (randomBytes rnd) := by
  have hlen : (randomBytes rnd).length = 32 := by simp [randomBytes]
  have hb : ∀ b ∈ randomBytes rnd, b < 256 := by
    intro b hmem
    unfold randomBytes at hmem
    obtain ⟨i, _, rfl⟩ := List.mem_map.mp hmem
    exact Nat.mod_lt _ (by decide)
  obtain ⟨h1, h2, h3⟩ := encode_decode (randomBytes rnd) hb
  refine ⟨hlen, hb, rfl, ?_, h3, h1⟩
  show ((randomBytes rnd).flatMap fun v => [hexDigit (v / 16), hexDigit (v % 16)]).length = 64
  rw [h2, hlen]

/-! ## The names the classifier counts under -/

/-- C18: for every error message, the counter `logFailure` increments is
`success`, `unknown_error`, or a non-empty name made of `[A-Z_]` characters
only; it is never `runs_started` nor one of `no_active_channel_found`,
`channels_unavailable`, `no_route_found`, `sendpay_call_failed`, and those
counters are left as they were. -/
theorem logFailure_key (m : ReportSet) (msg : String) :
    ∃ k, logFailure m msg = count m k ∧
      (k = Success ∨ k = UnknownError ∨
        (k.toList ≠ [] ∧ ∀ c ∈ k.toList, inClass c = true)) ∧
      k ≠ Run ∧ k ≠ NoActiveChannelFound ∧ k ≠ ChannelsUnavailable ∧
      k ≠ NoRouteFound ∧ k ≠ SendPayFailed ∧
      (logFailure m msg).lookup Run = m.lookup Run ∧
      (logFailure m msg).lookup NoActiveChannelFound = m.lookup NoActiveChannelFound ∧
      (logFailure m msg).lookup ChannelsUnavailable = m.lookup ChannelsUnavailable ∧
      (logFailure m msg).lookup NoRouteFound = m.lookup NoRouteFound ∧
      (logFailure m msg).lookup SendPayFailed = m.lookup SendPayFailed := by
  have h1 : classify msg ≠ Run := classify_ne_run msg
  have h2 : classify msg ≠ NoActiveChannelFound :=
    classify_ne_of_char msg _ 'n' (by decide) (by decide) (by decide) (by decide)
  have h3 : classify msg ≠ ChannelsUnavailable :=
    classify_ne_of_char msg _ 'c' (by decide) (by decide) (by decide) (by decide)
  have h4 : classify msg ≠ NoRouteFound :=
    classify_ne_of_char msg _ 'n' (by decide) (by decide) (by decide) (by decide)
  have h5 : classify msg ≠ SendPayFailed :=
    classify_ne_of_char msg _ 's' (by decide) (by decide) (by decide) (by decide)
  refine ⟨classify msg, logFailure_eq_count m msg, classify_cases msg, h1, h2, h3, h4, h5,
    ?_, ?_, ?_, ?_, ?_⟩
  all_goals rw [logFailure_eq_count]
  · exact lookup_count_ne m _ _ (Ne.symm h1)
  · exact lookup_count_ne m _ _ (Ne.symm h2)
  · exact lookup_count_ne m _ _ (Ne.symm h3)
  · exact lookup_count_ne m _ _ (Ne.symm h4)
  · exact lookup_count_ne m _ _ (Ne.symm h5)

/-! ## Indexing the channel list -/

/-- C19: for every non-empty channel list and every value `r` of `rand.Int()`,
the index `r % len(channels)` lies within the list, so that `channels[n]` is
defined; whatever the draws, the selection loop ends without a fault. -/
theorem index_in_bounds (channels : List Channel) (hne : channels ≠ []) :
    (∀ r : Nat, r % channels.length < channels.length ∧
      ∃ c, channels[r % channels.length]? = some c ∧ c ∈ channels) ∧
    (∀ (rnd : Nat → Nat) (k i : Nat) (ch : Channel),
      (selectLoop channels rnd k i ch).fault = none) ∧
    (∀ rnd : Nat → Nat, (selectLoop channels rnd 1000 0 default).fault = none) := by
  have hlen : channels.length ≠ 0 := fun h0 => hne (List.length_eq_zero.mp h0)
  refine ⟨?_, ?_, ?_⟩
  · intro r
    exact ⟨Nat.mod_lt _ (Nat.pos_of_ne_zero hlen), getElem?_mod channels r hlen⟩
  · intro rnd k i ch
    exact selectLoop_fault channels rnd hlen k i ch
  · intro rnd
    exact selectLoop_fault channels rnd hlen 1000 0 default

theorem index_in_bounds_witness :
    [Channel.mk "02aa" false, ⟨"03bb", true⟩, ⟨"04cc", false⟩] ≠ [] ∧
    9223372036854775807 % [Channel.mk "02aa" false, ⟨"03bb", true⟩, ⟨"04cc", false⟩].length <
      [Channel.mk "02aa" false, ⟨"03bb", true⟩, ⟨"04cc", false⟩].length ∧
    (selectLoop [Channel.mk "02aa" false, ⟨"03bb", true⟩, ⟨"04cc", false⟩]
      (fun i => 3 * i) 1000 0 default).fault = none :=
  ⟨by decide,
    ((index_in_bounds [Channel.mk "02aa" false, ⟨"03bb", true⟩, ⟨"04cc", false⟩]
      (by decide)).1 9223372036854775807).1,
    (index_in_bounds [Channel.mk "02aa" false, ⟨"03bb", true⟩, ⟨"04cc", false⟩]
      (by decide)).2.2 (fun i => 3 * i)⟩

end Sitzprobe
